import Mathlib

/-!
Shallow embedding of the carrosselV1 image/content acquisition pipeline.

The development models, directly from the TypeScript sources:
  * `src/lib/cache.ts`        — the `SimpleCache` TTL cache;
  * `src/lib/corsProxy.ts`    — the CORS relay chain, the image reachability
    probe `testImageUrl` and the variant resolver `getWorkingImageUrl`;
  * `src/lib/ai.ts`           — the zod response schema, `fetchImageForQuery`
    and the image-resolution stage of `generateCarouselContent`;
  * `src/hooks/useImageExtractor.ts` — `isQualityImage` and the
    candidate-collection passes of `extractImages`;
  * `src/services/imageService.ts`   — the `ImageService` facade
    (`searchUnsplash`, `processImageUrl`, `extractImagesFromPage`).

JavaScript strings are modelled as `List Char`; timestamps and pixel sizes as
`Int`; the browser/network boundary (fetch outcomes, DOM parsing, image
decoding) as explicit environment records passed to each function.
-/

/-- JavaScript strings, modelled as lists of characters. -/
abbrev Str : Type := List Char

/-- The character list of a Lean string literal. -/
def str (s : String) : Str := s.data

/-- JavaScript `hay.includes(needle)` (substring containment). -/
def jsIncludes (hay needle : Str) : Bool := decide (needle <:+: hay)

/-- JavaScript `s.toLowerCase()` (ASCII-adequate model). -/
def jsToLower (s : Str) : Str := s.map Char.toLower

/-- JavaScript string truthiness: the empty string is falsy. -/
def strTruthy (s : Str) : Bool := !s.isEmpty

/-- JavaScript `s.startsWith(p)`. -/
def strStartsWith : Str → Str → Bool
  | _, [] => true
  | [], _ :: _ => false
  | c :: s, p :: ps => c = p && strStartsWith s ps

/-- First truthy value of a JavaScript `a || b || ...` chain over nullable
strings (`null`/`undefined` and `""` are falsy). -/
def firstTruthyStr : List (Option Str) → Option Str
  | [] => none
  | none :: rest => firstTruthyStr rest
  | some s :: rest => if s.isEmpty then firstTruthyStr rest else some s

/-! ## `src/lib/cache.ts` — the `SimpleCache` TTL cache -/

/-- One stored cache record: `{ data, timestamp, expiry }` from `cache.ts`. -/
structure CacheEntry (T : Type) where
  data : T
  timestamp : Int
  expiry : Int
  deriving Repr, DecidableEq

/-- Insertion-ordered key/value store modelling the JavaScript `Map` that
backs `SimpleCache`, together with the instance's `defaultTTL`. -/
structure SimpleCache (T : Type) where
  cache : List (Str × CacheEntry T)
  defaultTTL : Int
  deriving Repr, DecidableEq

/-- `Map.prototype.get`: first entry with the given key. -/
def mapLookup {α : Type} : List (Str × α) → Str → Option α
  | [], _ => none
  | (k', v) :: rest, k => if k' = k then some v else mapLookup rest k

/-- `Map.prototype.set`: replace the entry in place, or append a new one. -/
def mapSet {α : Type} : List (Str × α) → Str → α → List (Str × α)
  | [], k, v => [(k, v)]
  | (k', v') :: rest, k, v =>
    if k' = k then (k, v) :: rest else (k', v') :: mapSet rest k v

/-- `Map.prototype.delete`: remove the entry with the given key. -/
def mapDelete {α : Type} : List (Str × α) → Str → List (Str × α)
  | [], _ => []
  | (k', v') :: rest, k =>
    if k' = k then rest else (k', v') :: mapDelete rest k

/-- `SimpleCache.set(key, value, ttl?)`, at clock value `now`
(`Date.now()`).  The source computes `expiry = ttl || this.defaultTTL`, so a
missing or zero (falsy) `ttl` falls back to the default. -/
def cacheSet {T : Type} (now : Int) (c : SimpleCache T) (key : Str) (value : T)
    (ttl : Option Int) : SimpleCache T :=
  let expiry : Int :=
    match ttl with
    | none => c.defaultTTL
    | some t => if t = 0 then c.defaultTTL else t
  { c with cache := mapSet c.cache key { data := value, timestamp := now, expiry := expiry } }

/-- `SimpleCache.get(key)` at clock value `now`: returns the value (or `none`)
together with the updated store (an expired entry is deleted). -/
def cacheGet {T : Type} (now : Int) (c : SimpleCache T) (key : Str) :
    Option T × SimpleCache T :=
  match mapLookup c.cache key with
  | none => (none, c)
  | some e =>
    if now - e.timestamp > e.expiry then
      (none, { c with cache := mapDelete c.cache key })
    else
      (some e.data, c)

/-- `SimpleCache.has(key)`. -/
def cacheHas {T : Type} (now : Int) (c : SimpleCache T) (key : Str) : Bool :=
  ((cacheGet now c key).1).isSome

/-- `SimpleCache.size()`. -/
def cacheSize {T : Type} (c : SimpleCache T) : Nat := c.cache.length

/-! ## `src/lib/ai.ts` — schema validation and slide image resolution -/

/-- Parsed JSON values (the output of `JSON.parse`). -/
inductive Json where
  | null
  | bool (b : Bool)
  | num (n : Int)
  | str (s : Str)
  | arr (items : List Json)
  | obj (fields : List (Str × Json))

/-- Field lookup on a JSON value: `none` unless the value is an object with
the field. -/
def jLookup : Json → Str → Option Json
  | .obj fields, k => mapLookup fields k
  | _, _ => none

/-- One slide of the AI reply after validation (`aiSlideSchema`). -/
structure AiSlide where
  text : Str
  imageQuery : Str

/-- A generated slide after image resolution
(`{ id, text, imageUrl }` built in `generateCarouselContent`). -/
structure GenSlide where
  id : Nat
  text : Str
  imageUrl : Str

/-- String-typed field access: the value of field `k` when it is a JSON
string (`z.string()` accepts any string, including the empty one). -/
def jStrField (j : Json) (k : Str) : Option Str :=
  match jLookup j k with
  | some (.str s) => some s
  | _ => none

/-- `aiSlideSchema.safeParse`: requires an object whose `text` and
`imageQuery` fields are strings (zod's `z.string()` accepts the empty
string). -/
def parseAiSlide (j : Json) : Option AiSlide :=
  match jStrField j (str "text"), jStrField j (str "imageQuery") with
  | some t, some q => some { text := t, imageQuery := q }
  | _, _ => none

/-- `aiResponseSchema(slideCount).safeParse`: an object with a `slides` array
whose elements all satisfy `aiSlideSchema`, with `.min(slideCount)` and
`.max(slideCount)` bounds on the array length. -/
def parseAiResponse (slideCount : Nat) (j : Json) : Option (List AiSlide) :=
  match jLookup j (str "slides") with
  | some (.arr items) =>
    match items.mapM parseAiSlide with
    | some slides =>
      if slideCount ≤ slides.length ∧ slides.length ≤ slideCount then some slides
      else none
    | none => none
  | _ => none

/-- Environment of `fetchImageForQuery`: whether the Unsplash key is
configured, the combined fetch/HTTP/`response.json()` outcome per query, and
the host `new URL` validity check used by zod's `.url()`. -/
structure AiEnv where
  unsplashKey : Bool
  fetchSearch : Str → Except Str Json
  validUrl : Str → Bool

/-- Placeholder returned by `fetchImageForQuery` when the Unsplash key is
missing (pexels photo 3184418). -/
def fallbackMissingKey : Str :=
  str "https://images.pexels.com/photos/3184418/pexels-photo-3184418.jpeg?auto=compress&cs=tinysrgb&w=1260&h=750&dpr=2"

/-- Fallback returned when the Unsplash search succeeds but yields no valid
results (pexels photo 3183197). -/
def fallbackNoResults : Str :=
  str "https://images.pexels.com/photos/3183197/pexels-photo-3183197.jpeg?auto=compress&cs=tinysrgb&w=1260&h=750&dpr=2"

/-- Fallback returned when the Unsplash request throws (pexels photo
3184339). -/
def fallbackOnError : Str :=
  str "https://images.pexels.com/photos/3184339/pexels-photo-3184339.jpeg?auto=compress&cs=tinysrgb&w=1260&h=750&dpr=2"

/-- `unsplashResponseSchema.safeParse` reduced to the list of
`results[i].urls.regular` strings; `.url()` validity comes from the
environment's `new URL` check. -/
def parseUnsplashUrls (validUrl : Str → Bool) (j : Json) : Option (List Str) :=
  match jLookup j (str "results") with
  | some (.arr items) =>
    items.mapM fun it =>
      match jLookup it (str "urls") with
      | some u =>
        match jLookup u (str "regular") with
        | some (.str s) => if validUrl s then some s else none
        | _ => none
      | _ => none
  | _ => none

/-- `fetchImageForQuery(query)`: always returns a URL — the first search
result on success, a fixed placeholder otherwise. -/
def fetchImageForQuery (env : AiEnv) (query : Str) : Str :=
  if !env.unsplashKey then fallbackMissingKey
  else
    match env.fetchSearch query with
    | .error _ => fallbackOnError
    | .ok j =>
      match parseUnsplashUrls env.validUrl j with
      | some (u :: _) => u
      | _ => fallbackNoResults

/-- Whether the Unsplash lookup for `query` actually succeeds (key present,
request succeeds, and the parsed response has at least one result). -/
def querySucceeds (env : AiEnv) (query : Str) : Bool :=
  env.unsplashKey &&
    match env.fetchSearch query with
    | .ok j =>
      match parseUnsplashUrls env.validUrl j with
      | some (_ :: _) => true
      | _ => false
    | .error _ => false

/-- The slide-building loop of `generateCarouselContent`
(`generatedSlides.map`), with the running index made explicit. -/
def buildSlidesGo (env : AiEnv) : Nat → List AiSlide → List GenSlide
  | _, [] => []
  | i, s :: rest =>
    { id := i + 1, text := s.text, imageUrl := fetchImageForQuery env s.imageQuery }
      :: buildSlidesGo env (i + 1) rest

/-- `slidesWithImages` of `generateCarouselContent`: one resolved slide per
validated slide, ids starting at 1. -/
def buildSlides (env : AiEnv) (slides : List AiSlide) : List GenSlide :=
  buildSlidesGo env 0 slides

/-- The stage of `generateCarouselContent` after the provider reply has been
unwrapped to a JSON value: schema validation followed by image resolution.
The second component counts the `fetchImageForQuery` invocations performed. -/
def generateFromContent (slideCount : Nat) (content : Json) (env : AiEnv) :
    Except Str (List GenSlide) × Nat :=
  match parseAiResponse slideCount content with
  | none => (.error (str "A resposta da IA não corresponde ao formato esperado."), 0)
  | some slides => (.ok (buildSlides env slides), slides.length)

/-- Modelled from the spec (amended C2): the schema acceptance condition
stated independently of the parser — the reply is an object whose `slides`
field is an array of exactly `slideCount` objects, each carrying string-typed
`text` and `imageQuery` fields. -/
def specSchemaAccepts (slideCount : Nat) (j : Json) : Prop :=
  ∃ items : List Json,
    jLookup j (str "slides") = some (Json.arr items) ∧
    items.length = slideCount ∧
    ∀ it ∈ items, ∃ t q : Str,
      jLookup it (str "text") = some (Json.str t) ∧
      jLookup it (str "imageQuery") = some (Json.str q)

/-- A provider reply whose single slide has the right shape but empty `text`
and `imageQuery` strings. -/
def aiReplyEmptyStrings : Json :=
  .obj [(str "slides",
    .arr [.obj [(str "text", .str (str "")), (str "imageQuery", .str (str ""))]])]

/-- A provider reply with four well-shaped slides. -/
def aiReplyFourSlides : Json :=
  .obj [(str "slides", .arr [
    .obj [(str "text", .str (str "a")), (str "imageQuery", .str (str "qa"))],
    .obj [(str "text", .str (str "b")), (str "imageQuery", .str (str "qb"))],
    .obj [(str "text", .str (str "c")), (str "imageQuery", .str (str "qc"))],
    .obj [(str "text", .str (str "d")), (str "imageQuery", .str (str "qd"))]])]

/-- An environment with no Unsplash key configured. -/
def aiEnvNoKey : AiEnv :=
  { unsplashKey := false, fetchSearch := fun _ => .error (str "down"),
    validUrl := fun _ => false }

/-! ## `src/lib/corsProxy.ts` — the CORS relay chain -/

/-- The names of the seven configured relay services, in iteration order. -/
def corsServiceNames : List Str :=
  [str "AllOrigins", str "CORS.SH", str "Proxy CORS", str "CORS Proxy",
   str "Proxy.rs", str "Crossorigin.me", str "ThingProxy"]

/-- Name of the relay service at index `i`. -/
def serviceName (i : Nat) : Str := corsServiceNames.getD i (str "")

/-- Outcome of one relay attempt, observed at the point where the response
has been unwrapped by the service's `parseResponse`: either some step of the
attempt threw (network failure, non-2xx status, empty response text) with an
error message, or the attempt produced an unwrapped body. -/
inductive AttemptOutcome where
  | fail (msg : Str)
  | content (body : Str)

/-- Environment of `fetchWithCorsProxy`: outcome of the attempt at service
index `si`, retry number `r`. -/
def RelayEnv : Type := Nat → Nat → AttemptOutcome

/-- Error message thrown when the unwrapped body is too short or empty. -/
def tooSmallMsg : Str := str "Conteúdo HTML muito pequeno ou vazio"

/-- Label recorded into `lastError` after a failed attempt
(`` `${service.name}: ${errorMsg}` ``). -/
def attemptLabel (si : Nat) (msg : Str) : Str :=
  serviceName si ++ str ": " ++ msg

/-- The error text an attempt contributes to `lastError` when it fails. -/
def attemptErrorText : AttemptOutcome → Str
  | .fail msg => msg
  | .content _ => tooSmallMsg

/-- Whether the attempt at `(si, r)` is treated as failed by the loop: it
threw, or its unwrapped body is not longer than 100 characters. -/
def attemptFailed (env : RelayEnv) (si r : Nat) : Prop :=
  match env si r with
  | .fail _ => True
  | .content body => body.length ≤ 100

/-- The message of the error thrown after the loops exhaust all services. -/
def allFailedMsg (maxRetries : Nat) (lastError : Option Str) : Str :=
  str "Todos os serviços CORS falharam após " ++ str (toString maxRetries) ++
    str " tentativas. Último erro: " ++ lastError.getD (str "null")

/-- The retries attempted against service `si`, in order. -/
def serviceAttempts (si maxRetries : Nat) : List (Nat × Nat) :=
  (List.range maxRetries).map fun r => (si, r)

/-- The service-major, retry-minor order of the two nested loops of
`fetchWithCorsProxy`. -/
def attemptOrder (maxRetries : Nat) : List (Nat × Nat) :=
  ((List.range corsServiceNames.length).map fun si =>
    serviceAttempts si maxRetries).flatten

/-- The body of the two nested loops of `fetchWithCorsProxy`, threading
`lastError`: an attempt whose unwrapped body is longer than 100 characters
returns it; any other attempt records `lastError` and continues (backoff
sleeps do not influence the result). -/
def runAttempts (env : RelayEnv) (maxRetries : Nat) :
    List (Nat × Nat) → Option Str → Except Str Str
  | [], lastError => .error (allFailedMsg maxRetries lastError)
  | (si, r) :: rest, _lastError =>
    match env si r with
    | .fail msg => runAttempts env maxRetries rest (some (attemptLabel si msg))
    | .content body =>
      if body.length > 100 then .ok body
      else runAttempts env maxRetries rest (some (attemptLabel si tooSmallMsg))

/-- The value `lastError` holds after processing a list of attempts that all
failed, starting from a given value. -/
def finalLabel (env : RelayEnv) : List (Nat × Nat) → Option Str → Option Str
  | [], lastError => lastError
  | (si, r) :: rest, _ =>
    finalLabel env rest (some (attemptLabel si (attemptErrorText (env si r))))

/-- `fetchWithCorsProxy(url, maxRetries)`: consult the html cache first;
otherwise run the relay/retry loops, caching an accepted body. Returns the
result together with the updated html cache. -/
def fetchWithCorsProxy (env : RelayEnv) (now : Int) (htmlCache : SimpleCache Str)
    (url : Str) (maxRetries : Nat) : Except Str Str × SimpleCache Str :=
  match cacheGet now htmlCache url with
  | (some cached, c) => (.ok cached, c)
  | (none, c) =>
    match runAttempts env maxRetries (attemptOrder maxRetries) none with
    | .ok body => (.ok body, cacheSet now c url body none)
    | .error e => (.error e, c)

/-- A relay environment in which every attempt throws the same error. -/
def relayEnvAllFail : RelayEnv := fun _ _ => .fail (str "boom")

/-- A relay environment in which service 0 always yields `bshort` and every
other service yields `blong`. -/
def twoRelayEnv (bshort blong : Str) : RelayEnv := fun si _ =>
  if si = 0 then .content bshort else .content blong

/-! ## `src/hooks/useImageExtractor.ts` — the extraction quality filter -/

/-- An extraction candidate (`ExtractedImage`): `src`, `alt` and optional
pixel dimensions. -/
structure ExtractedImage where
  src : Str
  alt : Str
  width : Option Int
  height : Option Int

/-- JavaScript truthiness of an optional number (`undefined` and `0` are
falsy). -/
def numTruthy : Option Int → Bool
  | none => false
  | some n => n != 0

/-- The accepted quality formats (`['.jpg', '.jpeg', '.png', '.webp']`). -/
def qualityFormats : List Str :=
  [str ".jpg", str ".jpeg", str ".png", str ".webp"]

/-- The hook's denylist of low-quality indicator substrings (the stricter,
hyphen-suffixed variant of `useImageExtractor.ts`). -/
def lowQualityKeywordsHook : List Str :=
  [str "thumb-", str "thumbnail", str "icon-", str "logo-", str "sprite-",
   str "avatar-", str "banner-", str "ads-", str "tracking-", str "pixel-",
   str "beacon-", str "button-", str "social-", str "widget-",
   str "placeholder-", str "loading-", str "spinner-", str "separator-",
   str "divider-", str "watermark-", str "copyright-", str "signature-",
   str "badge-", str "medal-", str "flag-", str "emoji-", str "emoticon-",
   str "smiley-"]

/-- The size sub-check: when both dimensions are truthy they must meet the
minimums; otherwise the candidate passes permissively. -/
def meetsSizeCheck (width height : Option Int) (minWidth minHeight : Int) : Bool :=
  if numTruthy width && numTruthy height then
    decide (width.getD 0 ≥ minWidth) && decide (height.getD 0 ≥ minHeight)
  else true

/-- `isQualityImage` of `useImageExtractor.ts`: quality format present in the
lowercased src, no denylisted substring in lowercased src or alt, and the
size sub-check against the fixed 300×200 minimum. -/
def isQualityImage (img : ExtractedImage) : Bool :=
  let srcLower := jsToLower img.src
  let altLower := jsToLower img.alt
  let hasQualityFormat := qualityFormats.any fun ext => jsIncludes srcLower ext
  let hasLowQualityKeyword := lowQualityKeywordsHook.any fun kw =>
    jsIncludes srcLower kw || jsIncludes altLower kw
  let meetsSize := meetsSizeCheck img.width img.height 300 200
  hasQualityFormat && !hasLowQualityKeyword && meetsSize

/-! ## `useImageExtractor.ts` — candidate collection over a parsed page -/

/-- Prefix of `s` before the first occurrence of `c` (JavaScript
`s.split(c)[0]`). -/
def takeUntil (c : Char) (s : Str) : Str := s.takeWhile fun x => x ≠ c

/-- JavaScript `s.trim()`. -/
def jsTrim (s : Str) : Str :=
  ((s.dropWhile Char.isWhitespace).reverse.dropWhile Char.isWhitespace).reverse

/-- First URL of a `srcset` value:
`v.split(',')[0]?.trim().split(' ')[0]`. -/
def srcsetFirstUrl (s : Str) : Str := takeUntil ' ' (jsTrim (takeUntil ',' s))

/-- Leading-digit parse (`parseInt`): `none` models `NaN`. -/
def jsParseInt (s : Str) : Option Int :=
  let s1 := s.dropWhile Char.isWhitespace
  let core : Str → Option Nat := fun t =>
    let ds := t.takeWhile Char.isDigit
    if ds.isEmpty then none
    else some (ds.foldl (fun acc c => acc * 10 + (c.toNat - '0'.toNat)) 0)
  match s1 with
  | '-' :: rest => (core rest).map fun n => -(n : Int)
  | '+' :: rest => (core rest).map fun n => (n : Int)
  | rest => (core rest).map fun n => (n : Int)

/-- `parseInt(attr || '0') || undefined`: a missing or empty attribute reads
as `'0'`, and a zero or `NaN` parse yields `undefined`. -/
def attrDimFallback (attr : Option Str) : Option Int :=
  let a := (firstTruthyStr [attr]).getD (str "0")
  match jsParseInt a with
  | some n => if n != 0 then some n else none
  | none => none

/-- `img.naturalWidth || parseInt(img.getAttribute('width') || '0')
|| undefined` for an `<img>` element. -/
def imgDeclaredDim (naturalDim : Int) (attr : Option Str) : Option Int :=
  if naturalDim != 0 then some naturalDim else attrDimFallback attr

/-- The same fallback chain for an arbitrary element, whose `naturalWidth`
property may be `undefined`. -/
def ecomDeclaredDim (naturalDim : Option Int) (attr : Option Str) : Option Int :=
  if numTruthy naturalDim then naturalDim else attrDimFallback attr

/-- An `<img>` element as the img-tag pass observes it: the `src`/`alt`
properties (empty string when absent), the lazy-load attributes, and the
dimension sources. -/
structure ImgEl where
  src : Str
  dataSrc : Option Str
  dataLazySrc : Option Str
  dataOriginal : Option Str
  dataSrcset : Option Str
  alt : Str
  title : Option Str
  dataAlt : Option Str
  naturalWidth : Int
  naturalHeight : Int
  widthAttr : Option Str
  heightAttr : Option Str

/-- `img.src || data-src || data-lazy-src || data-original ||
data-srcset?.split(',')[0]?.trim().split(' ')[0]`, as an optional value
(`none` when every alternative is falsy, in which case `if (src)` skips). -/
def imgChosenSrc (img : ImgEl) : Option Str :=
  firstTruthyStr [some img.src, img.dataSrc, img.dataLazySrc, img.dataOriginal,
    img.dataSrcset.map srcsetFirstUrl]

/-- `img.alt || title || data-alt || ''`. -/
def imgChosenAlt (img : ImgEl) : Str :=
  (firstTruthyStr [some img.alt, img.title, img.dataAlt]).getD (str "")

/-- An element considered by the background-image pass. -/
structure BgEl where
  style : Option Str
  alt : Option Str
  title : Option Str

/-- A `meta` image tag (`og:image` / `twitter:image`). -/
structure MetaEl where
  content : Option Str

/-- An element matched by one of the e-commerce selectors. -/
structure EcomEl where
  src : Option Str
  dataSrc : Option Str
  dataOriginal : Option Str
  alt : Option Str
  title : Option Str
  naturalWidth : Option Int
  naturalHeight : Option Int
  widthAttr : Option Str
  heightAttr : Option Str

/-- The parsed document as the collection passes observe it: the query
results of each pass (one element list per e-commerce selector) and the
parse outcome of each JSON-LD script. -/
structure Doc where
  imgs : List ImgEl
  bgEls : List BgEl
  metaEls : List MetaEl
  jsonLds : List (Option Json)
  ecomEls : List (List EcomEl)

/-- The page's base URL (`protocol` like `https:`, plus `host`). -/
structure BaseUrl where
  protocol : Str
  host : Str

/-- `convertToAbsoluteUrl`: protocol-relative, root-relative and bare URLs
are resolved against the base; the try body cannot throw, so the `null`
branch is unreachable. -/
def convertToAbsoluteUrl (src : Str) (base : BaseUrl) : Option Str :=
  if strStartsWith src (str "//") then some (str "https:" ++ src)
  else if strStartsWith src (str "/") then
    some (base.protocol ++ str "//" ++ base.host ++ src)
  else if !strStartsWith src (str "http") then
    some (base.protocol ++ str "//" ++ base.host ++ str "/" ++ src)
  else some src

/-- Shared mutable state of the collection passes: the `foundUrls` set
(most recent first) and the `candidateImages` list (in push order). -/
structure ExtractSt where
  foundUrls : List Str
  candidateImages : List ExtractedImage

/-- `foundUrls.add(src); candidateImages.push(...)` guarded by
`!foundUrls.has(src)`. -/
def addCandidate (st : ExtractSt) (src alt : Str) (w h : Option Int) :
    ExtractSt :=
  if st.foundUrls.contains src then st
  else { foundUrls := src :: st.foundUrls,
         candidateImages := st.candidateImages
           ++ [{ src := src, alt := alt, width := w, height := h }] }

/-- The `if (absoluteSrc && !foundUrls.has(absoluteSrc))` push common to all
passes. -/
def pushIfNew (st : ExtractSt) (absSrc : Option Str) (alt : Str)
    (w h : Option Int) : ExtractSt :=
  match absSrc with
  | some abs => if strTruthy abs then addCandidate st abs alt w h else st
  | none => st

/-- The loop body of pass 1 for one `<img>` element. -/
def imgTagStep (base : BaseUrl) (st : ExtractSt) (img : ImgEl) : ExtractSt :=
  match imgChosenSrc img with
  | some src =>
    pushIfNew st (convertToAbsoluteUrl src base) (imgChosenAlt img)
      (imgDeclaredDim img.naturalWidth img.widthAttr)
      (imgDeclaredDim img.naturalHeight img.heightAttr)
  | none => st

/-- Pass 1: `<img>` tags. -/
def extractFromImgTags (base : BaseUrl) (imgs : List ImgEl)
    (st : ExtractSt) : ExtractSt :=
  imgs.foldl (imgTagStep base) st

/-- First capture of the `background-image:\s*url\(['"]?([^'"()]+)['"]?\)`
pattern at the start of `s`. -/
def bgMatchAt (s : Str) : Option Str :=
  if strStartsWith s (str "background-image:") then
    let s2 := (s.drop (str "background-image:").length).dropWhile
      Char.isWhitespace
    if strStartsWith s2 (str "url(") then
      let s3 := s2.drop (str "url(").length
      let s4 := match s3 with
        | c :: rest => if c = '\'' ∨ c = '"' then rest else s3
        | [] => s3
      let cap := s4.takeWhile fun c => ¬(c = '\'' ∨ c = '"' ∨ c = '(' ∨ c = ')')
      if cap.isEmpty then none
      else
        let s5 := s4.drop cap.length
        let s6 := match s5 with
          | c :: rest => if c = '\'' ∨ c = '"' then rest else s5
          | [] => s5
        match s6 with
        | ')' :: _ => some cap
        | _ => none
    else none
  else none

/-- First match of the background-image pattern anywhere in `s`
(`style.match(...)`, capture group 1). -/
def bgCapture : Str → Option Str
  | [] => none
  | c :: rest =>
    match bgMatchAt (c :: rest) with
    | some cap => some cap
    | none => bgCapture rest

/-- The loop body of pass 2 for one element carrying a style attribute. -/
def bgStep (base : BaseUrl) (st : ExtractSt) (el : BgEl) : ExtractSt :=
  match bgCapture (el.style.getD (str "")) with
  | some cap =>
    if strTruthy cap then
      pushIfNew st (convertToAbsoluteUrl cap base)
        ((firstTruthyStr [el.alt, el.title]).getD (str "Background Image"))
        none none
    else st
  | none => st

/-- Pass 2: inline `background-image` styles. -/
def extractFromBackgroundImages (base : BaseUrl) (els : List BgEl)
    (st : ExtractSt) : ExtractSt :=
  let withBg := els.filter fun el =>
    match el.style with
    | some s => jsIncludes s (str "background-image")
    | none => false
  withBg.foldl (bgStep base) st

/-- The loop body of pass 3 for one meta tag. -/
def metaStep (base : BaseUrl) (st : ExtractSt) (meta : MetaEl) : ExtractSt :=
  match meta.content with
  | some content =>
    if strTruthy content then
      pushIfNew st (convertToAbsoluteUrl content base)
        (str "Social Media Image") none none
    else st
  | none => st

/-- Pass 3: OpenGraph / Twitter meta tags. -/
def extractFromMetaTags (base : BaseUrl) (metas : List MetaEl)
    (st : ExtractSt) : ExtractSt :=
  metas.foldl (metaStep base) st

/-- The string filter of the JSON-LD walk. -/
def jsonImgString (s : Str) : Bool :=
  jsIncludes s (str ".jpg") || jsIncludes s (str ".jpeg") ||
    jsIncludes s (str ".png") || jsIncludes s (str ".webp")

/-- The key filter of the JSON-LD walk. -/
def keyMatches (k : Str) : Bool :=
  jsIncludes (jsToLower k) (str "image") || k == str "url" ||
    k == str "contentUrl"

mutual

/-- Pass 4's recursive walk (`extractImagesFromJson`): image-looking strings
are pushed; objects recurse into image/url keys; arrays have only numeric
keys and contribute nothing. -/
def extractFromJson (base : BaseUrl) : Json → Str → ExtractSt → ExtractSt
  | .str s, path, st =>
    if jsonImgString s then
      pushIfNew st (convertToAbsoluteUrl s base)
        (str "Structured Data Image (" ++ path ++ str ")") none none
    else st
  | .obj fields, _, st => extractFromJsonFields base fields st
  | _, _, st => st

/-- `Object.keys(obj).forEach` of the JSON-LD walk. -/
def extractFromJsonFields (base : BaseUrl) :
    List (Str × Json) → ExtractSt → ExtractSt
  | [], st => st
  | (k, v) :: rest, st =>
    extractFromJsonFields base rest
      (if keyMatches k then extractFromJson base v k st else st)

end

/-- The loop body of pass 5 for one element of a selector match. -/
def ecomStep (base : BaseUrl) (st : ExtractSt) (el : EcomEl) : ExtractSt :=
  match firstTruthyStr [el.src, el.dataSrc, el.dataOriginal] with
  | some src =>
    pushIfNew st (convertToAbsoluteUrl src base)
      ((firstTruthyStr [el.alt, el.title]).getD (str "Product Image"))
      (ecomDeclaredDim el.naturalWidth el.widthAttr)
      (ecomDeclaredDim el.naturalHeight el.heightAttr)
  | none => st

/-- Pass 5: the e-commerce selector sweep. -/
def extractFromEcomSelectors (base : BaseUrl) (groups : List (List EcomEl))
    (st : ExtractSt) : ExtractSt :=
  groups.foldl (fun st els => els.foldl (ecomStep base) st) st

/-- The loop body of pass 4 for one JSON-LD script's parse outcome. -/
def jsonLdStep (base : BaseUrl) (st : ExtractSt) (parsed : Option Json) :
    ExtractSt :=
  match parsed with
  | some data => extractFromJson base data (str "") st
  | none => st

/-- The five candidate-collection passes of `extractImages`, in source
order, over a parsed document. -/
def collectCandidates (base : BaseUrl) (doc : Doc) : ExtractSt :=
  let st0 : ExtractSt := { foundUrls := [], candidateImages := [] }
  let st1 := extractFromImgTags base doc.imgs st0
  let st2 := extractFromBackgroundImages base doc.bgEls st1
  let st3 := extractFromMetaTags base doc.metaEls st2
  let st4 := doc.jsonLds.foldl (jsonLdStep base) st3
  extractFromEcomSelectors base doc.ecomEls st4

/-- The dedup invariant: `foundUrls` is exactly the reversed list of
candidate srcs, without duplicates. -/
def stInv (st : ExtractSt) : Prop :=
  st.foundUrls = (st.candidateImages.map fun c => c.src).reverse ∧
    st.foundUrls.Nodup

/-- A concrete base URL for the extraction scenario. -/
def c9Base : BaseUrl := { protocol := str "https:", host := str "ex.com" }

/-- An `<img>` whose `src` property carries the URL. -/
def c9ImgA : ImgEl :=
  { src := str "https://ex.com/a.jpg", dataSrc := none, dataLazySrc := none,
    dataOriginal := none, dataSrcset := none, alt := str "first",
    title := none, dataAlt := none, naturalWidth := 0, naturalHeight := 0,
    widthAttr := none, heightAttr := none }

/-- A different `<img>` whose `data-src` attribute resolves to the same
absolute URL. -/
def c9ImgB : ImgEl :=
  { src := str "", dataSrc := some (str "https://ex.com/a.jpg"),
    dataLazySrc := none, dataOriginal := none, dataSrcset := none,
    alt := str "second", title := none, dataAlt := none, naturalWidth := 0,
    naturalHeight := 0, widthAttr := none, heightAttr := none }

/-- A document holding the two `<img>` tags above and nothing else. -/
def c9Doc : Doc :=
  { imgs := [c9ImgA, c9ImgB], bgEls := [], metaEls := [], jsonLds := [],
    ecomEls := [] }

/-! ## `corsProxy.ts` — reachability probe and variant resolver -/

/-- The browser/network boundary of `testImageUrl`: whether a
`fetch(url, { method: 'HEAD', mode: 'no-cors' })` resolves for a URL. -/
structure ProbeEnv where
  headOk : Str → Bool

/-- `testImageUrl(imageUrl)` over the `imageUrlCache`: a cached verdict is
returned as is; otherwise the HEAD fetch decides and the verdict is
cached. -/
def testImageUrl (env : ProbeEnv) (now : Int) (cache : SimpleCache Bool)
    (imageUrl : Str) : Bool × SimpleCache Bool :=
  match cacheGet now cache imageUrl with
  | (some cached, c1) => (cached, c1)
  | (none, c1) =>
    let isAccessible := env.headOk imageUrl
    (isAccessible, cacheSet now c1 imageUrl isAccessible none)

/-- Consume `lit` at the head of `s`. -/
def dropLit (lit s : Str) : Option Str :=
  if strStartsWith s lit then some (s.drop lit.length) else none

/-- Consume one or more digits at the head of `s`. -/
def matchDigits1 (s : Str) : Option Str :=
  let ds := s.takeWhile Char.isDigit
  if ds.isEmpty then none else some (s.drop ds.length)

/-- Fueled global replace: at each position, either a matcher fires — the
replacement is emitted and scanning continues after the match — or one
character is copied. -/
def replaceScan (m : Str → Option (Str × Str)) : Nat → Str → Str
  | 0, s => s
  | _ + 1, [] => []
  | fuel + 1, c :: cs =>
    match m (c :: cs) with
    | some (rep, rest) => rep ++ replaceScan m fuel rest
    | none => c :: replaceScan m fuel cs

/-- `s.replace(pattern, rep)` with a global regex, for matchers that consume
at least one character. -/
def jsReplaceAll (m : Str → Option (Str × Str)) (s : Str) : Str :=
  replaceScan m s.length s

/-- Matcher of `/\/w_\d+,h_\d+/g`, replaced by `/w_800,h_600`. -/
def matchWH (s : Str) : Option (Str × Str) := do
  let s1 ← dropLit (str "/w_") s
  let s2 ← matchDigits1 s1
  let s3 ← dropLit (str ",h_") s2
  let s4 ← matchDigits1 s3
  some (str "/w_800,h_600", s4)

/-- Matcher of `/\/resize\/\d+x\d+/g`, replaced by `/resize/800x600`. -/
def matchResize (s : Str) : Option (Str × Str) := do
  let s1 ← dropLit (str "/resize/") s
  let s2 ← matchDigits1 s1
  let s3 ← dropLit (str "x") s2
  let s4 ← matchDigits1 s3
  some (str "/resize/800x600", s4)

/-- Matcher of `/&w=\d+&h=\d+/g`, replaced by `&w=800&h=600`. -/
def matchWHQuery (s : Str) : Option (Str × Str) := do
  let s1 ← dropLit (str "&w=") s
  let s2 ← matchDigits1 s1
  let s3 ← dropLit (str "&h=") s2
  let s4 ← matchDigits1 s3
  some (str "&w=800&h=600", s4)

/-- Literal global replace matcher (`.webp` → `.jpg` and the like). -/
def matchLitRep (lit rep : Str) (s : Str) : Option (Str × Str) := do
  let s1 ← dropLit lit s
  some (rep, s1)

/-- Matcher of `/cdn\d+\./g`, replaced by `cdn.`. -/
def matchCdnN (s : Str) : Option (Str × Str) := do
  let s1 ← dropLit (str "cdn") s
  let s2 ← matchDigits1 s1
  let s3 ← dropLit (str ".") s2
  some (str "cdn.", s3)

/-- Matcher of `/img\d+\./g`, replaced by `img.`. -/
def matchImgN (s : Str) : Option (Str × Str) := do
  let s1 ← dropLit (str "img") s
  let s2 ← matchDigits1 s1
  let s3 ← dropLit (str ".") s2
  some (str "img.", s3)

/-- `url.replace(/^http:\/\//g, 'https://')` (anchored). -/
def replaceHttpWithHttps (s : Str) : Str :=
  match dropLit (str "http://") s with
  | some rest => str "https://" ++ rest
  | none => s

/-- The ordered variant list of `getWorkingImageUrl`. -/
def urlVariations (originalUrl : Str) : List Str :=
  [originalUrl,
   takeUntil '?' originalUrl,
   jsReplaceAll matchWH originalUrl,
   jsReplaceAll matchResize originalUrl,
   jsReplaceAll matchWHQuery originalUrl,
   jsReplaceAll (matchLitRep (str ".webp") (str ".jpg")) originalUrl,
   jsReplaceAll (matchLitRep (str ".avif") (str ".jpg")) originalUrl,
   jsReplaceAll matchCdnN originalUrl,
   jsReplaceAll matchImgN originalUrl,
   replaceHttpWithHttps originalUrl]

/-- The probing loop of `getWorkingImageUrl`: first variant whose probe
succeeds, threading the `imageUrlCache`. -/
def findWorkingUrl (env : ProbeEnv) (now : Int) :
    List Str → SimpleCache Bool → Option Str × SimpleCache Bool
  | [], cache => (none, cache)
  | v :: rest, cache =>
    match testImageUrl env now cache v with
    | (true, c1) => (some v, c1)
    | (false, c1) => findWorkingUrl env now rest c1

/-- `getWorkingImageUrl(originalUrl)`. -/
def getWorkingImageUrl (env : ProbeEnv) (now : Int) (cache : SimpleCache Bool)
    (originalUrl : Str) : Option Str × SimpleCache Bool :=
  findWorkingUrl env now (urlVariations originalUrl) cache

/-! ## `services/imageService.ts` — the `ImageService` facade -/

/-- The common image descriptor (`ImageSource`). -/
structure ImageSource where
  src : Str
  alt : Str
  width : Option Int
  height : Option Int
  source : Option Str

/-- `ImageSearchOptions` of `searchUnsplash`. -/
structure ImageSearchOptions where
  query : Str
  page : Option Int
  perPage : Option Int
  orientation : Option Str

/-- One record of the Unsplash search response
(`urls.regular`, `alt_description`, `description`, `width`, `height`). -/
structure UnsplashImg where
  regular : Str
  altDescription : Option Str
  description : Option Str
  width : Int
  height : Int

/-- Environment of `searchUnsplash`: key presence and the parsed
`data.results` of the search request built from the options (or the HTTP
failure's `statusText`). -/
structure UnsplashEnv where
  keyPresent : Bool
  searchResponse : ImageSearchOptions → Except Str (List UnsplashImg)

/-- `ImageService.searchUnsplash(options)`: maps the response records to
descriptors directly — no reachability probe is involved. -/
def searchUnsplash (env : UnsplashEnv) (options : ImageSearchOptions) :
    Except Str (List ImageSource) :=
  if !env.keyPresent then
    .error (str "Chave de acesso do Unsplash não configurada")
  else
    match env.searchResponse options with
    | .error statusText => .error (str "Erro na API do Unsplash: " ++ statusText)
    | .ok results =>
      .ok (results.map fun img =>
        { src := img.regular,
          alt := (firstTruthyStr [img.altDescription, img.description]).getD
            (str "Imagem do Unsplash"),
          width := some img.width, height := some img.height,
          source := some (str "unsplash") })

/-- Environment of the image-decoding boundary (`new Image()` with the
5-second timeout): `none` models a decode error or timeout. -/
structure DimsEnv where
  decode : Str → Option (Int × Int)

/-- `loadImageDimensions(src)` over the `imageDimensionsCache`. -/
def loadImageDimensions (denv : DimsEnv) (now : Int)
    (cache : SimpleCache (Int × Int)) (src : Str) :
    Option (Int × Int) × SimpleCache (Int × Int) :=
  match cacheGet now cache src with
  | (some cached, c1) => (some cached, c1)
  | (none, c1) =>
    match denv.decode src with
    | some dims => (some dims, cacheSet now c1 src dims none)
    | none => (none, c1)

/-- Browser-boundary services of the facade: the probe, the image decoder,
`new URL` validity, and the DOM parses of page body and base URL. -/
structure SvcEnv where
  probe : ProbeEnv
  dims : DimsEnv
  isValidUrl : Str → Bool
  parseDoc : Str → Doc
  parseBase : Str → BaseUrl

/-- The two caches the facade mutates. -/
structure SvcState where
  imageUrlCache : SimpleCache Bool
  imageDimensionsCache : SimpleCache (Int × Int)

/-- The extension allow-list of `processImageUrl`. -/
def imageExtensionsProc : List Str :=
  [str ".jpg", str ".jpeg", str ".png", str ".webp", str ".gif", str ".bmp"]

/-- `url.split('/').pop()?.split('.')[0] || 'Imagem'`. -/
def procAlt (url : Str) : Str :=
  let seg := takeUntil '.' ((url.reverse.takeWhile fun c => c ≠ '/').reverse)
  if seg.isEmpty then str "Imagem" else seg

/-- `ImageService.processImageUrl(url)`: URL syntax check, image-extension
check, reachability resolution via `getWorkingImageUrl`, then dimension
loading. -/
def processImageUrl (env : SvcEnv) (now : Int) (st : SvcState) (url : Str) :
    Except Str ImageSource × SvcState :=
  if !env.isValidUrl url then (.error (str "URL inválida"), st)
  else if !(imageExtensionsProc.any fun ext => jsIncludes (jsToLower url) ext) then
    (.error (str "URL não parece ser uma imagem válida"), st)
  else
    match getWorkingImageUrl env.probe now st.imageUrlCache url with
    | (none, c1) =>
      (.error (str "Imagem não acessível"), { st with imageUrlCache := c1 })
    | (some workingUrl, c1) =>
      let dres := loadImageDimensions env.dims now st.imageDimensionsCache
        workingUrl
      (.ok { src := workingUrl, alt := procAlt url,
             width := dres.1.map Prod.fst, height := dres.1.map Prod.snd,
             source := some (str "url") },
       { imageUrlCache := c1, imageDimensionsCache := dres.2 })

/-- `ImageService.isDirectImageUrl(url)` (includes `.svg`). -/
def isDirectImageUrl (url : Str) : Bool :=
  [str ".jpg", str ".jpeg", str ".png", str ".webp", str ".gif", str ".bmp",
   str ".svg"].any fun ext => jsIncludes (jsToLower url) ext

/-- The facade's denylist (without the hyphen suffixes of the hook). -/
def lowQualityKeywordsSvc : List Str :=
  [str "thumb", str "thumbnail", str "icon", str "logo", str "sprite",
   str "avatar", str "banner", str "ads", str "tracking", str "pixel",
   str "beacon", str "button", str "social", str "widget", str "placeholder",
   str "loading", str "spinner"]

/-- `ImageService.isQualityImage(img, minWidth, minHeight)`. -/
def isQualityImageSvc (img : ExtractedImage) (minWidth minHeight : Int) : Bool :=
  let srcLower := jsToLower img.src
  let altLower := jsToLower img.alt
  let hasQualityFormat := qualityFormats.any fun ext => jsIncludes srcLower ext
  let hasLowQualityKeyword := lowQualityKeywordsSvc.any fun kw =>
    jsIncludes srcLower kw || jsIncludes altLower kw
  let meetsSize := meetsSizeCheck img.width img.height minWidth minHeight
  hasQualityFormat && !hasLowQualityKeyword && meetsSize

mutual

/-- The facade's JSON-LD walk (`extractImagesFromJson`): filters strings
with `isDirectImageUrl` and uses a fixed alt text. -/
def svcExtractFromJson (base : BaseUrl) : Json → ExtractSt → ExtractSt
  | .str s, st =>
    if isDirectImageUrl s then
      pushIfNew st (convertToAbsoluteUrl s base) (str "Structured Data Image")
        none none
    else st
  | .obj fields, st => svcExtractFromJsonFields base fields st
  | _, st => st

/-- Key iteration of the facade's JSON-LD walk. -/
def svcExtractFromJsonFields (base : BaseUrl) :
    List (Str × Json) → ExtractSt → ExtractSt
  | [], st => st
  | (k, v) :: rest, st =>
    svcExtractFromJsonFields base rest
      (if keyMatches k then svcExtractFromJson base v st else st)

end

/-- The facade's JSON-LD loop body. -/
def svcJsonLdStep (base : BaseUrl) (st : ExtractSt) (parsed : Option Json) :
    ExtractSt :=
  match parsed with
  | some data => svcExtractFromJson base data st
  | none => st

/-- The facade's four candidate-collection passes (no e-commerce sweep). -/
def svcCollectCandidates (base : BaseUrl) (doc : Doc) : ExtractSt :=
  let st0 : ExtractSt := { foundUrls := [], candidateImages := [] }
  let st1 := extractFromImgTags base doc.imgs st0
  let st2 := extractFromBackgroundImages base doc.bgEls st1
  let st3 := extractFromMetaTags base doc.metaEls st2
  doc.jsonLds.foldl (svcJsonLdStep base) st3

/-- The `if (!img.width || !img.height)` dimension completion of the
quality loop: load missing dimensions, leaving `src` and `alt`
untouched. -/
def completeDims (env : SvcEnv) (now : Int) (dcache : SimpleCache (Int × Int))
    (img1 : ExtractedImage) : ExtractedImage × SimpleCache (Int × Int) :=
  if !numTruthy img1.width || !numTruthy img1.height then
    match loadImageDimensions env.dims now dcache img1.src with
    | (some dims, c2) =>
      ({ img1 with width := some dims.1, height := some dims.2 }, c2)
    | (none, c2) => (img1, c2)
  else (img1, dcache)

/-- The quality loop of `extractImagesFromPage`: resolve a working variant
(drop unresolvable candidates), complete missing dimensions, apply the
quality filter, and stop once `maxResults` accepted candidates exist. -/
def qualityLoop (env : SvcEnv) (now : Int) (minW minH : Int) (maxResults : Nat) :
    List ExtractedImage → SvcState → List ImageSource →
      List ImageSource × SvcState
  | [], st, acc => (acc, st)
  | img :: rest, st, acc =>
    match getWorkingImageUrl env.probe now st.imageUrlCache img.src with
    | (none, c1) =>
      qualityLoop env now minW minH maxResults rest
        { st with imageUrlCache := c1 } acc
    | (some workingUrl, c1) =>
      let step2 := completeDims env now st.imageDimensionsCache
        { img with src := workingUrl }
      let st1 : SvcState := { imageUrlCache := c1,
                              imageDimensionsCache := step2.2 }
      let acc1 := if isQualityImageSvc step2.1 minW minH then
          acc ++ [{ src := step2.1.src, alt := step2.1.alt,
                    width := step2.1.width, height := step2.1.height,
                    source := some (str "web-extraction") }]
        else acc
      if maxResults ≤ acc1.length then (acc1, st1)
      else qualityLoop env now minW minH maxResults rest st1 acc1

/-- `ImageExtractionOptions` (defaults 300 / 200 / 15). -/
structure ImageExtractionOptions where
  url : Str
  minWidth : Option Int
  minHeight : Option Int
  maxResults : Option Nat

/-- `ImageService.extractImagesFromPage(options)`: URL validation, the
direct-image short-circuit through `processImageUrl`, else the relay fetch,
the four collection passes, and the quality loop. -/
def extractImagesFromPage (env : SvcEnv) (renv : RelayEnv) (now : Int)
    (htmlCache : SimpleCache Str) (st : SvcState)
    (options : ImageExtractionOptions) :
    Except Str (List ImageSource) × SvcState × SimpleCache Str :=
  let url := options.url
  let minW := options.minWidth.getD 300
  let minH := options.minHeight.getD 200
  let maxR := options.maxResults.getD 15
  if !env.isValidUrl url then (.error (str "URL inválida"), st, htmlCache)
  else if isDirectImageUrl url then
    match processImageUrl env now st url with
    | (.ok r, st1) => (.ok [r], st1, htmlCache)
    | (.error e, st1) => (.error e, st1, htmlCache)
  else
    match fetchWithCorsProxy renv now htmlCache url 3 with
    | (.error e, hc1) => (.error e, st, hc1)
    | (.ok htmlContent, hc1) =>
      let doc := env.parseDoc htmlContent
      let base := env.parseBase url
      let cands := (svcCollectCandidates base doc).candidateImages
      let res := qualityLoop env now minW minH maxR cands st []
      (.ok res.1, res.2, hc1)

/-- Well-formedness of the `imageUrlCache` with respect to the probe
environment: every cached `true` verdict belongs to a URL whose HEAD probe
succeeds. -/
def probeWF (env : ProbeEnv) (cache : SimpleCache Bool) : Prop :=
  ∀ p ∈ cache.cache, p.2.data = true → env.headOk p.1 = true

/-- A concrete Unsplash environment returning one record. -/
def c1UnsplashEnv : UnsplashEnv :=
  { keyPresent := true,
    searchResponse := fun _ =>
      .ok [{ regular := str "https://u.com/x.jpg", altDescription := none,
             description := none, width := 100, height := 80 }] }

/-- Search options for the counterexample. -/
def c1Options : ImageSearchOptions :=
  { query := str "cats", page := none, perPage := none, orientation := none }

/-- A probe environment in which no URL is reachable. -/
def probeEnvAllFail : ProbeEnv := { headOk := fun _ => false }

/-- A fully permissive concrete facade environment for the witness. -/
def c1SvcEnv : SvcEnv :=
  { probe := { headOk := fun _ => true },
    dims := { decode := fun _ => some (500, 400) },
    isValidUrl := fun _ => true,
    parseDoc := fun _ =>
      { imgs := [], bgEls := [], metaEls := [], jsonLds := [], ecomEls := [] },
    parseBase := fun _ => { protocol := str "https:", host := str "ex.com" } }

/-- An empty facade cache state. -/
def c1SvcState : SvcState :=
  { imageUrlCache := ⟨[], 1800000⟩, imageDimensionsCache := ⟨[], 3600000⟩ }

/-! ### Association-list lemmas -/

theorem mapLookup_mapSet_self {α : Type} (l : List (Str × α)) (k : Str) (v : α) :
    mapLookup (mapSet l k v) k = some v := by
  induction l with
  | nil => simp [mapSet, mapLookup]
  | cons hd tl ih =>
    obtain ⟨k', v'⟩ := hd
    by_cases h : k' = k <;> simp [mapSet, mapLookup, h, ih]

theorem mapLookup_eq_none_of_not_mem {α : Type} {l : List (Str × α)} {k : Str}
    (h : k ∉ l.map Prod.fst) : mapLookup l k = none := by
  induction l with
  | nil => rfl
  | cons hd tl ih =>
    obtain ⟨k', v'⟩ := hd
    simp only [List.map_cons, List.mem_cons] at h
    push_neg at h
    simp [mapLookup, Ne.symm h.1, ih h.2]

theorem mapSet_cons_eq {α : Type} {k' k : Str} {v' v : α} {tl : List (Str × α)}
    (hk : k' = k) : mapSet ((k', v') :: tl) k v = (k, v) :: tl := by
  simp [mapSet, hk]

theorem mapSet_cons_ne {α : Type} {k' k : Str} {v' v : α} {tl : List (Str × α)}
    (hk : ¬k' = k) : mapSet ((k', v') :: tl) k v = (k', v') :: mapSet tl k v := by
  simp [mapSet, hk]

theorem mem_keys_mapSet {α : Type} {l : List (Str × α)} {k a : Str} {v : α}
    (h : a ∈ (mapSet l k v).map Prod.fst) : a ∈ l.map Prod.fst ∨ a = k := by
  induction l with
  | nil =>
    simp only [mapSet, List.map_cons, List.map_nil, List.mem_cons,
      List.not_mem_nil, or_false] at h
    exact Or.inr h
  | cons hd tl ih =>
    obtain ⟨k', v'⟩ := hd
    by_cases hk : k' = k
    · rw [mapSet_cons_eq hk] at h
      simp only [List.map_cons, List.mem_cons] at h
      rcases h with h | h
      · exact Or.inr h
      · exact Or.inl (List.mem_cons_of_mem _ h)
    · rw [mapSet_cons_ne hk] at h
      simp only [List.map_cons, List.mem_cons] at h
      rcases h with h | h
      · exact Or.inl (by rw [List.map_cons, h]; exact List.mem_cons_self _ _)
      · rcases ih h with h' | h'
        · exact Or.inl (List.mem_cons_of_mem _ h')
        · exact Or.inr h'

theorem nodup_keys_mapSet {α : Type} {l : List (Str × α)} (k : Str) (v : α)
    (h : (l.map Prod.fst).Nodup) : ((mapSet l k v).map Prod.fst).Nodup := by
  induction l with
  | nil => simp [mapSet]
  | cons hd tl ih =>
    obtain ⟨k', v'⟩ := hd
    simp only [List.map_cons, List.nodup_cons] at h
    by_cases hk : k' = k
    · subst hk
      rw [mapSet_cons_eq rfl]
      exact List.nodup_cons.mpr ⟨h.1, h.2⟩
    · rw [mapSet_cons_ne hk]
      simp only [List.map_cons, List.nodup_cons]
      refine ⟨?_, ih h.2⟩
      intro hmem
      rcases mem_keys_mapSet hmem with h' | h'
      · exact h.1 h'
      · exact hk h'

theorem mapLookup_mapDelete_self {α : Type} {l : List (Str × α)} {k : Str}
    (h : (l.map Prod.fst).Nodup) : mapLookup (mapDelete l k) k = none := by
  induction l with
  | nil => rfl
  | cons hd tl ih =>
    obtain ⟨k', v'⟩ := hd
    simp only [List.map_cons, List.nodup_cons] at h
    by_cases hk : k' = k
    · subst hk
      simpa [mapDelete] using mapLookup_eq_none_of_not_mem h.1
    · simp [mapDelete, hk, mapLookup, ih h.2]

/-! ### Claim theorems for the TTL cache -/

/-- C5 counterexample: the claim quantifies over every ttl `t`, but for
`t = 0` the source computes `expiry = ttl || defaultTTL = defaultTTL`, so a
read past `storedAt + 0` (here at time `1`) still returns the value instead
of missing. -/
theorem cacheGet_ttl_zero_counterexample :
    (cacheGet 1 (cacheSet 0 (⟨[], 300000⟩ : SimpleCache Str) (str "k") (str "v")
        (some 0)) (str "k")).1 = some (str "v") ∧ (1 : Int) - 0 > 0 := by
  constructor
  · decide
  · decide

/-- C5 (amended): for every nonzero ttl `t`, after `set(k,v,t)` a `get(k)`
before `t` has elapsed returns `v`; a `get(k)` past `storedAt + t` misses,
deletes the entry from the store, and a repeated read of the expired key is a
pure miss that leaves the store unchanged. -/
theorem simpleCache_set_then_get {T : Type} (c : SimpleCache T) (k : Str) (v : T)
    (t now getNow : Int) (hkeys : (c.cache.map Prod.fst).Nodup) (ht : t ≠ 0) :
    (getNow - now < t →
      (cacheGet getNow (cacheSet now c k v (some t)) k).1 = some v) ∧
    (getNow - now > t →
      (cacheGet getNow (cacheSet now c k v (some t)) k).1 = none ∧
      mapLookup ((cacheGet getNow (cacheSet now c k v (some t)) k).2).cache k = none ∧
      cacheGet getNow ((cacheGet getNow (cacheSet now c k v (some t)) k).2) k
        = (none, (cacheGet getNow (cacheSet now c k v (some t)) k).2)) := by
  have hexp : (cacheSet now c k v (some t)).cache
      = mapSet c.cache k { data := v, timestamp := now, expiry := t } := by
    simp [cacheSet, ht]
  have hlook : mapLookup (cacheSet now c k v (some t)).cache k
      = some { data := v, timestamp := now, expiry := t } := by
    rw [hexp]; exact mapLookup_mapSet_self _ _ _
  constructor
  · intro hlt
    have hng : ¬(getNow - now > t) := by omega
    simp [cacheGet, hlook, hng]
  · intro hgt
    have hdel : mapLookup (mapDelete (cacheSet now c k v (some t)).cache k) k = none := by
      apply mapLookup_mapDelete_self
      rw [hexp]
      exact nodup_keys_mapSet _ _ hkeys
    refine ⟨?_, ?_, ?_⟩
    · simp [cacheGet, hlook, hgt]
    · simp [cacheGet, hlook, hgt, hdel]
    · simp [cacheGet, hlook, hgt, hdel]

/-- Witness for `simpleCache_set_then_get`: a concrete store with default TTL
`300000`, `set` at time `0` with ttl `10`, read back at time `20`. -/
theorem simpleCache_set_then_get_witness :
    (cacheGet 20 (cacheSet 0 (⟨[], 300000⟩ : SimpleCache Str) (str "k") (str "v")
        (some 10)) (str "k")).1 = none ∧
    mapLookup ((cacheGet 20 (cacheSet 0 (⟨[], 300000⟩ : SimpleCache Str) (str "k")
        (str "v") (some 10)) (str "k")).2).cache (str "k") = none ∧
    cacheGet 20 ((cacheGet 20 (cacheSet 0 (⟨[], 300000⟩ : SimpleCache Str) (str "k")
        (str "v") (some 10)) (str "k")).2) (str "k")
      = (none, (cacheGet 20 (cacheSet 0 (⟨[], 300000⟩ : SimpleCache Str) (str "k")
        (str "v") (some 10)) (str "k")).2) :=
  (simpleCache_set_then_get (⟨[], 300000⟩ : SimpleCache Str) (str "k") (str "v")
    10 0 20 (by simp) (by decide)).2 (by decide)

/-- C10 counterexample: a negative ttl is truthy in JavaScript, so
`set(k, v, -1)` stores an entry whose `expiry` is `-1`, and a `get(k)` at the
very same instant already misses — the public interface can insert an entry
that immediately reads as a miss. -/
theorem cacheSet_negative_ttl_immediate_miss :
    (cacheGet 0 (cacheSet 0 (⟨[], 300000⟩ : SimpleCache Str) (str "k") (str "v")
        (some (-1))) (str "k")).1 = none := by
  decide

/-- C10 (amended): `set` treats a falsy ttl argument as absent — `set(k,v,0)`
stores the entry with the instance's default TTL, so a zero ttl cannot create
an already-expired entry: an immediate `get(k)` returns `v` whenever the
default TTL is nonnegative. -/
theorem cacheSet_zero_ttl_uses_default {T : Type} (c : SimpleCache T) (k : Str)
    (v : T) (now : Int) (hd : 0 ≤ c.defaultTTL) :
    mapLookup (cacheSet now c k v (some 0)).cache k
      = some { data := v, timestamp := now, expiry := c.defaultTTL } ∧
    (cacheGet now (cacheSet now c k v (some 0)) k).1 = some v := by
  have hexp : (cacheSet now c k v (some 0)).cache
      = mapSet c.cache k { data := v, timestamp := now, expiry := c.defaultTTL } := by
    simp [cacheSet]
  have hlook : mapLookup (cacheSet now c k v (some 0)).cache k
      = some { data := v, timestamp := now, expiry := c.defaultTTL } := by
    rw [hexp]; exact mapLookup_mapSet_self _ _ _
  refine ⟨hlook, ?_⟩
  have hng : ¬(c.defaultTTL < 0) := by omega
  simp [cacheGet, hlook, hng]

/-- Witness for `cacheSet_zero_ttl_uses_default` on a concrete store. -/
theorem cacheSet_zero_ttl_uses_default_witness :
    mapLookup (cacheSet 7 (⟨[], 600000⟩ : SimpleCache Str) (str "u") (str "w")
        (some 0)).cache (str "u")
      = some { data := str "w", timestamp := 7, expiry := 600000 } ∧
    (cacheGet 7 (cacheSet 7 (⟨[], 600000⟩ : SimpleCache Str) (str "u") (str "w")
        (some 0)) (str "u")).1 = some (str "w") :=
  cacheSet_zero_ttl_uses_default (⟨[], 600000⟩ : SimpleCache Str) (str "u")
    (str "w") 7 (by decide)

/-! ### Lemmas about the AI response schema -/

theorem jStrField_eq_some {j : Json} {k : Str} {t : Str} :
    jStrField j k = some t ↔ jLookup j k = some (.str t) := by
  unfold jStrField
  cases h : jLookup j k with
  | none => simp
  | some v => cases v <;> simp

theorem exists_jStrField_iff {j : Json} {k : Str} :
    (∃ t, jStrField j k = some t) ↔ (∃ t, jLookup j k = some (.str t)) := by
  constructor <;> rintro ⟨t, h⟩
  · exact ⟨t, jStrField_eq_some.mp h⟩
  · exact ⟨t, jStrField_eq_some.mpr h⟩

theorem parseAiSlide_exists_iff {it : Json} :
    (∃ s, parseAiSlide it = some s) ↔
      (∃ t, jLookup it (str "text") = some (.str t)) ∧
      (∃ q, jLookup it (str "imageQuery") = some (.str q)) := by
  rw [← exists_jStrField_iff, ← exists_jStrField_iff]
  unfold parseAiSlide
  cases hT : jStrField it (str "text") <;>
    cases hQ : jStrField it (str "imageQuery") <;> simp

theorem mapM_option_length {α β : Type} {f : α → Option β} :
    ∀ {l : List α} {res : List β}, l.mapM f = some res → res.length = l.length := by
  intro l
  induction l with
  | nil =>
    intro res h
    simp only [List.mapM_nil, pure] at h
    cases h
    rfl
  | cons a t ih =>
    intro res h
    rw [List.mapM_cons] at h
    cases hfa : f a with
    | none => rw [hfa] at h; simp at h
    | some b =>
      rw [hfa] at h
      cases hmt : t.mapM f with
      | none => rw [hmt] at h; simp at h
      | some bs =>
        rw [hmt] at h
        simp only [Option.bind_some, Option.some_bind, pure] at h
        cases h
        simp [List.length_cons, ih hmt]

theorem mapM_option_isSome_iff {α β : Type} {f : α → Option β} {l : List α} :
    (∃ res, l.mapM f = some res) ↔ ∀ a ∈ l, ∃ b, f a = some b := by
  induction l with
  | nil =>
    exact iff_of_true ⟨[], rfl⟩ fun a ha => absurd ha (List.not_mem_nil a)
  | cons a t ih =>
    constructor
    · rintro ⟨res, h⟩
      rw [List.mapM_cons] at h
      cases hfa : f a with
      | none => rw [hfa] at h; simp at h
      | some b =>
        rw [hfa] at h
        cases hmt : t.mapM f with
        | none => rw [hmt] at h; simp at h
        | some bs =>
          intro x hx
          rcases List.mem_cons.mp hx with rfl | hx'
          · exact ⟨b, hfa⟩
          · exact ih.mp ⟨bs, hmt⟩ x hx'
    · intro hall
      obtain ⟨b, hfa⟩ := hall a (List.mem_cons_self _ _)
      obtain ⟨bs, hmt⟩ := ih.mpr fun x hx => hall x (List.mem_cons_of_mem _ hx)
      refine ⟨b :: bs, ?_⟩
      rw [List.mapM_cons, hfa, hmt]
      rfl

theorem parseAiResponse_isSome_iff (n : Nat) (j : Json) :
    (∃ sl, parseAiResponse n j = some sl) ↔ specSchemaAccepts n j := by
  constructor
  · rintro ⟨sl, hsl⟩
    unfold parseAiResponse at hsl
    split at hsl
    next items heq =>
      split at hsl
      next slides hm =>
        split at hsl
        next hc =>
          refine ⟨items, heq, ?_, ?_⟩
          · have := mapM_option_length hm
            omega
          · intro it hit
            obtain ⟨b, hb⟩ := mapM_option_isSome_iff.mp ⟨slides, hm⟩ it hit
            obtain ⟨⟨t, h1⟩, ⟨q, h2⟩⟩ := parseAiSlide_exists_iff.mp ⟨b, hb⟩
            exact ⟨t, q, h1, h2⟩
        next => exact Option.noConfusion hsl
      next => exact Option.noConfusion hsl
    next => exact Option.noConfusion hsl
  · rintro ⟨items, hlook, hlen, hall⟩
    obtain ⟨slides, hm⟩ := mapM_option_isSome_iff.mpr fun it hit => by
      obtain ⟨t, q, h1, h2⟩ := hall it hit
      exact parseAiSlide_exists_iff.mpr ⟨⟨t, h1⟩, ⟨q, h2⟩⟩
    have hl := mapM_option_length hm
    refine ⟨slides, ?_⟩
    unfold parseAiResponse
    rw [hlook]
    show (match items.mapM parseAiSlide with
      | some slides =>
        if n ≤ slides.length ∧ slides.length ≤ n then some slides else none
      | none => none) = some slides
    rw [hm]
    show (if n ≤ slides.length ∧ slides.length ≤ n then some slides else none)
      = some slides
    rw [if_pos ⟨by omega, by omega⟩]

theorem buildSlidesGo_length (env : AiEnv) :
    ∀ (k : Nat) (sl : List AiSlide), (buildSlidesGo env k sl).length = sl.length := by
  intro k sl
  induction sl generalizing k with
  | nil => rfl
  | cons s rest ih => simp [buildSlidesGo, ih]

theorem buildSlides_length (env : AiEnv) (sl : List AiSlide) :
    (buildSlides env sl).length = sl.length :=
  buildSlidesGo_length env 0 sl

theorem buildSlidesGo_get (env : AiEnv) :
    ∀ (sl : List AiSlide) (k i : Nat) (h : i < sl.length),
      (buildSlidesGo env k sl).get ⟨i, by rw [buildSlidesGo_length]; exact h⟩
        = { id := k + i + 1, text := (sl.get ⟨i, h⟩).text,
            imageUrl := fetchImageForQuery env (sl.get ⟨i, h⟩).imageQuery } := by
  intro sl
  induction sl with
  | nil => intro k i h; exact absurd h (by simp)
  | cons s rest ih =>
    intro k i h
    cases i with
    | zero => rfl
    | succ i' =>
      have h' : i' < rest.length := Nat.succ_lt_succ_iff.mp (by simpa using h)
      have hrec := ih (k + 1) i' h'
      have harith : k + 1 + i' + 1 = k + (i' + 1) + 1 := by omega
      calc (buildSlidesGo env k (s :: rest)).get
            ⟨i' + 1, by rw [buildSlidesGo_length]; exact h⟩
          = (buildSlidesGo env (k + 1) rest).get
            ⟨i', by rw [buildSlidesGo_length]; exact h'⟩ := rfl
        _ = { id := k + 1 + i' + 1, text := (rest.get ⟨i', h'⟩).text,
              imageUrl := fetchImageForQuery env (rest.get ⟨i', h'⟩).imageQuery } := hrec
        _ = { id := k + (i' + 1) + 1, text := ((s :: rest).get ⟨i' + 1, h⟩).text,
              imageUrl :=
                fetchImageForQuery env ((s :: rest).get ⟨i' + 1, h⟩).imageQuery } := by
              rw [harith]
              rfl

/-! ### Claim theorems for the AI content generator -/

/-- C2 counterexample: the reply whose single slide has the right shape but
empty `text` and `imageQuery` strings passes schema validation — the call
succeeds instead of failing with the schema-validation error. -/
theorem generate_empty_strings_accepted :
    generateFromContent 1 aiReplyEmptyStrings aiEnvNoKey
      = (.ok [{ id := 1, text := str "", imageUrl := fallbackMissingKey }], 1) := rfl

/-- C2 (amended): `generateCarouselContent` fails with the schema-validation
error exactly when the parsed reply is not an object whose `slides` field is
an array of exactly `slideCount` objects each carrying string-typed `text`
and `imageQuery` fields; empty strings are accepted, not rejected. -/
theorem generateCarouselContent_schema_error_iff (n : Nat) (content : Json)
    (env : AiEnv) :
    (generateFromContent n content env).1
        = .error (str "A resposta da IA não corresponde ao formato esperado.")
      ↔ ¬specSchemaAccepts n content := by
  unfold generateFromContent
  cases hp : parseAiResponse n content with
  | none =>
    refine ⟨fun _ hacc => ?_, fun _ => rfl⟩
    obtain ⟨sl, hsl⟩ := (parseAiResponse_isSome_iff n content).mpr hacc
    rw [hp] at hsl
    exact Option.noConfusion hsl
  | some slides =>
    refine ⟨fun hcontr => absurd hcontr (by simp), fun hn => ?_⟩
    exact (hn ((parseAiResponse_isSome_iff n content).mp ⟨slides, hp⟩)).elim

/-- C4: requesting 5 slides against a reply carrying a 4-element `slides`
array fails with the schema-validation error, and zero `fetchImageForQuery`
invocations occur, whatever the image-search environment. -/
theorem generate_four_slides_schema_error (env : AiEnv) :
    generateFromContent 5 aiReplyFourSlides env
      = (.error (str "A resposta da IA não corresponde ao formato esperado."), 0) := rfl

/-- C3: every validated slide receives exactly the image URL its own query
resolves to in isolation (so one slide's environment outcome cannot change
another's), the generation always produces one slide per validated slide,
and a failing image lookup yields one of the fixed fallback placeholder URLs
instead of an error. -/
theorem generate_slide_image_isolation (env : AiEnv) (slides : List AiSlide)
    (i : Nat) (h : i < slides.length) :
    (buildSlides env slides).length = slides.length ∧
    (buildSlides env slides).get ⟨i, by rw [buildSlides_length]; exact h⟩
      = { id := i + 1, text := (slides.get ⟨i, h⟩).text,
          imageUrl := fetchImageForQuery env (slides.get ⟨i, h⟩).imageQuery } ∧
    (querySucceeds env (slides.get ⟨i, h⟩).imageQuery = false →
      fetchImageForQuery env (slides.get ⟨i, h⟩).imageQuery
        ∈ [fallbackMissingKey, fallbackNoResults, fallbackOnError]) := by
  refine ⟨buildSlides_length env slides, ?_, ?_⟩
  · have hg := buildSlidesGo_get env slides 0 i h
    simpa [buildSlides, Nat.zero_add] using hg
  · intro hfail
    set q := (slides.get ⟨i, h⟩).imageQuery with hq
    unfold querySucceeds at hfail
    unfold fetchImageForQuery
    cases hk : env.unsplashKey with
    | false => simp [hk]
    | true =>
      rw [hk] at hfail
      simp only [Bool.true_and] at hfail
      cases hf : env.fetchSearch q with
      | error e => simp [hk, hf]
      | ok j =>
        rw [hf] at hfail
        cases hu : parseUnsplashUrls env.validUrl j with
        | none => simp [hk, hf, hu]
        | some us =>
          cases us with
          | nil => simp [hk, hf, hu]
          | cons u rest => simp [hu] at hfail

/-- Witness for `generate_slide_image_isolation`: one slide whose query fails
because no Unsplash key is configured. -/
theorem generate_slide_image_isolation_witness :
    (buildSlides aiEnvNoKey [{ text := str "a", imageQuery := str "q" }]).length = 1 ∧
    (buildSlides aiEnvNoKey [{ text := str "a", imageQuery := str "q" }]).get
        ⟨0, by decide⟩
      = { id := 1, text := str "a",
          imageUrl := fetchImageForQuery aiEnvNoKey (str "q") } ∧
    (querySucceeds aiEnvNoKey (str "q") = false →
      fetchImageForQuery aiEnvNoKey (str "q")
        ∈ [fallbackMissingKey, fallbackNoResults, fallbackOnError]) := by
  have hmain := generate_slide_image_isolation aiEnvNoKey
    [{ text := str "a", imageQuery := str "q" }] 0 (by decide)
  simpa using hmain

/-! ### Lemmas about the relay chain -/

theorem runAttempts_append_failed (env : RelayEnv) (m : Nat) :
    ∀ (l1 l2 : List (Nat × Nat)) (lastError : Option Str),
      (∀ p ∈ l1, attemptFailed env p.1 p.2) →
      runAttempts env m (l1 ++ l2) lastError
        = runAttempts env m l2 (finalLabel env l1 lastError) := by
  intro l1
  induction l1 with
  | nil => intro l2 lastError _; rfl
  | cons p rest ih =>
    intro l2 lastError hall
    obtain ⟨si, r⟩ := p
    cases he : env si r with
    | fail msg =>
      rw [List.cons_append]
      rw [show runAttempts env m ((si, r) :: (rest ++ l2)) lastError
          = runAttempts env m (rest ++ l2) (some (attemptLabel si msg)) from by
        simp [runAttempts, he]]
      rw [show finalLabel env ((si, r) :: rest) lastError
          = finalLabel env rest (some (attemptLabel si msg)) from by
        simp [finalLabel, he, attemptErrorText]]
      exact ih l2 _ fun q hq => hall q (List.mem_cons_of_mem _ hq)
    | content body =>
      have hlen : body.length ≤ 100 := by
        have hfail := hall (si, r) (List.mem_cons_self _ _)
        unfold attemptFailed at hfail
        rw [he] at hfail
        exact hfail
      have hnot : ¬(body.length > 100) := by omega
      rw [List.cons_append]
      rw [show runAttempts env m ((si, r) :: (rest ++ l2)) lastError
          = runAttempts env m (rest ++ l2) (some (attemptLabel si tooSmallMsg)) from by
        simp [runAttempts, he, hnot]]
      rw [show finalLabel env ((si, r) :: rest) lastError
          = finalLabel env rest (some (attemptLabel si tooSmallMsg)) from by
        simp [finalLabel, he, attemptErrorText]]
      exact ih l2 _ fun q hq => hall q (List.mem_cons_of_mem _ hq)

theorem runAttempts_all_failed (env : RelayEnv) (m : Nat)
    (l : List (Nat × Nat)) (lastError : Option Str)
    (h : ∀ p ∈ l, attemptFailed env p.1 p.2) :
    runAttempts env m l lastError
      = .error (allFailedMsg m (finalLabel env l lastError)) := by
  have happ := runAttempts_append_failed env m l [] lastError h
  rw [List.append_nil] at happ
  exact happ

theorem runAttempts_ok_length (env : RelayEnv) (m : Nat) :
    ∀ (l : List (Nat × Nat)) (lastError : Option Str) (b : Str),
      runAttempts env m l lastError = .ok b → 100 < b.length := by
  intro l
  induction l with
  | nil => intro lastError b h; exact Except.noConfusion h
  | cons p rest ih =>
    intro lastError b h
    obtain ⟨si, r⟩ := p
    cases he : env si r with
    | fail msg =>
      rw [show runAttempts env m ((si, r) :: rest) lastError
          = runAttempts env m rest (some (attemptLabel si msg)) from by
        simp [runAttempts, he]] at h
      exact ih _ b h
    | content body =>
      have h' : (if body.length > 100 then Except.ok body
          else runAttempts env m rest (some (attemptLabel si tooSmallMsg))) = .ok b := by
        rw [show (if body.length > 100 then Except.ok (ε := Str) body
            else runAttempts env m rest (some (attemptLabel si tooSmallMsg)))
            = runAttempts env m ((si, r) :: rest) lastError from by
          simp [runAttempts, he]]
        exact h
      by_cases hlen : body.length > 100
      · rw [if_pos hlen] at h'
        cases h'
        exact hlen
      · rw [if_neg hlen] at h'
        exact ih _ b h'

theorem runAttempts_success (env : RelayEnv) (m : Nat) :
    ∀ (l : List (Nat × Nat)) (lastError : Option Str),
      (∃ p ∈ l, ¬attemptFailed env p.1 p.2) →
      ∃ b, runAttempts env m l lastError = .ok b := by
  intro l
  induction l with
  | nil => rintro lastError ⟨p, hp, _⟩; exact absurd hp (List.not_mem_nil p)
  | cons q rest ih =>
    rintro lastError ⟨p, hp, hnf⟩
    obtain ⟨si, r⟩ := q
    cases he : env si r with
    | fail msg =>
      have hp' : p ∈ rest := by
        rcases List.mem_cons.mp hp with rfl | hmem
        · exact absurd (show attemptFailed env si r by
            unfold attemptFailed; rw [he]; trivial) hnf
        · exact hmem
      obtain ⟨b, hb⟩ := ih _ ⟨p, hp', hnf⟩
      refine ⟨b, ?_⟩
      rw [show runAttempts env m ((si, r) :: rest) lastError
          = runAttempts env m rest (some (attemptLabel si msg)) from by
        simp [runAttempts, he]]
      exact hb
    | content body =>
      by_cases hlen : body.length > 100
      · refine ⟨body, ?_⟩
        rw [show runAttempts env m ((si, r) :: rest) lastError
            = (if body.length > 100 then Except.ok body
               else runAttempts env m rest (some (attemptLabel si tooSmallMsg))) from by
          simp [runAttempts, he]]
        exact if_pos hlen
      · have hp' : p ∈ rest := by
          rcases List.mem_cons.mp hp with rfl | hmem
          · exact absurd (show attemptFailed env si r by
              unfold attemptFailed; rw [he]; omega) hnf
          · exact hmem
        obtain ⟨b, hb⟩ := ih _ ⟨p, hp', hnf⟩
        refine ⟨b, ?_⟩
        rw [show runAttempts env m ((si, r) :: rest) lastError
            = (if body.length > 100 then Except.ok body
               else runAttempts env m rest (some (attemptLabel si tooSmallMsg))) from by
          simp [runAttempts, he]]
        rw [if_neg hlen]
        exact hb

theorem finalLabel_append (env : RelayEnv) :
    ∀ (l1 l2 : List (Nat × Nat)) (lastError : Option Str),
      finalLabel env (l1 ++ l2) lastError
        = finalLabel env l2 (finalLabel env l1 lastError) := by
  intro l1
  induction l1 with
  | nil => intro l2 lastError; rfl
  | cons p rest ih =>
    intro l2 lastError
    obtain ⟨si, r⟩ := p
    rw [List.cons_append]
    show finalLabel env (rest ++ l2) _ = _
    rw [ih]
    rfl

theorem finalLabel_serviceAttempts (env : RelayEnv) (si k : Nat)
    (lastError : Option Str) :
    finalLabel env (serviceAttempts si (k + 1)) lastError
      = some (attemptLabel si (attemptErrorText (env si k))) := by
  unfold serviceAttempts
  rw [List.range_succ, List.map_append, finalLabel_append]
  rfl

theorem finalLabel_attemptOrder (env : RelayEnv) (k : Nat) :
    finalLabel env (attemptOrder (k + 1)) none
      = some (attemptLabel 6 (attemptErrorText (env 6 k))) := by
  have hdecomp : attemptOrder (k + 1)
      = serviceAttempts 0 (k + 1) ++ (serviceAttempts 1 (k + 1) ++
        (serviceAttempts 2 (k + 1) ++ (serviceAttempts 3 (k + 1) ++
        (serviceAttempts 4 (k + 1) ++ (serviceAttempts 5 (k + 1) ++
        (serviceAttempts 6 (k + 1) ++ [])))))) := rfl
  rw [hdecomp, finalLabel_append, finalLabel_append, finalLabel_append,
    finalLabel_append, finalLabel_append, finalLabel_append, finalLabel_append,
    finalLabel_serviceAttempts]
  rfl

theorem mem_attemptOrder_iff {si r m : Nat} :
    (si, r) ∈ attemptOrder m ↔ si < corsServiceNames.length ∧ r < m := by
  unfold attemptOrder serviceAttempts
  simp only [List.mem_flatten, List.mem_map, List.mem_range]
  constructor
  · rintro ⟨l, ⟨si', hsi', rfl⟩, hmem⟩
    rw [List.mem_map] at hmem
    obtain ⟨r', hr', heq⟩ := hmem
    rw [List.mem_range] at hr'
    obtain ⟨h1, h2⟩ : si' = si ∧ r' = r := by simpa using heq
    subst h1
    subst h2
    exact ⟨hsi', hr'⟩
  · rintro ⟨hsi, hr⟩
    refine ⟨_, ⟨si, hsi, rfl⟩, ?_⟩
    exact List.mem_map.mpr ⟨r, List.mem_range.mpr hr, rfl⟩

/-! ### Claim theorems for the relay chain -/

/-- C6: on a cache miss, `fetchWithCorsProxy` throws only after every
relay/retry combination has failed, and the thrown message contains the name
of the last relay that failed (the final service in order) together with
that relay's underlying error text; if any relay attempt succeeds, a body is
returned and no error is raised. -/
theorem fetchWithCorsProxy_exhaustion (env : RelayEnv) (now : Int)
    (cache : SimpleCache Str) (url : Str) (maxRetries : Nat)
    (hmr : 0 < maxRetries) :
    (∀ e, (fetchWithCorsProxy env now cache url maxRetries).1 = .error e →
        (∀ si, si < corsServiceNames.length → ∀ r, r < maxRetries →
          attemptFailed env si r) ∧
        serviceName (corsServiceNames.length - 1) <:+: e ∧
        attemptErrorText
          (env (corsServiceNames.length - 1) (maxRetries - 1)) <:+: e) ∧
    (∀ si r, si < corsServiceNames.length → r < maxRetries →
        ¬attemptFailed env si r →
        ∃ b, (fetchWithCorsProxy env now cache url maxRetries).1 = .ok b) := by
  obtain ⟨k, rfl⟩ : ∃ k, maxRetries = k + 1 := ⟨maxRetries - 1, by omega⟩
  constructor
  · intro e he
    unfold fetchWithCorsProxy at he
    rcases hcg : cacheGet now cache url with ⟨copt, c⟩
    rw [hcg] at he
    cases copt with
    | some cached => exact Except.noConfusion he
    | none =>
      cases hra : runAttempts env (k + 1) (attemptOrder (k + 1)) none with
      | ok b =>
        rw [hra] at he
        simp at he
      | error e' =>
        rw [hra] at he
        simp at he
        have hall : ∀ si, si < corsServiceNames.length → ∀ r, r < k + 1 →
            attemptFailed env si r := by
          intro si hsi r hr
          by_contra hnf
          obtain ⟨b, hb⟩ := runAttempts_success env (k + 1) (attemptOrder (k + 1))
            none ⟨(si, r), mem_attemptOrder_iff.mpr ⟨hsi, hr⟩, hnf⟩
          rw [hb] at hra
          exact Except.noConfusion hra
        have hform := runAttempts_all_failed env (k + 1) (attemptOrder (k + 1))
          none fun p hp => hall p.1 (mem_attemptOrder_iff.mp hp).1 p.2
            (mem_attemptOrder_iff.mp hp).2
        rw [hform] at hra
        injection hra with hee
        rw [finalLabel_attemptOrder] at hee
        refine ⟨hall, ?_, ?_⟩
        · show serviceName 6 <:+: e
          rw [← he, ← hee]
          refine ⟨str "Todos os serviços CORS falharam após "
            ++ str (toString (k + 1)) ++ str " tentativas. Último erro: ",
            str ": " ++ attemptErrorText (env 6 k), ?_⟩
          simp [allFailedMsg, attemptLabel, List.append_assoc]
        · show attemptErrorText (env 6 k) <:+: e
          rw [← he, ← hee]
          refine ⟨str "Todos os serviços CORS falharam após "
            ++ str (toString (k + 1)) ++ str " tentativas. Último erro: "
            ++ (serviceName 6 ++ str ": "), [], ?_⟩
          simp [allFailedMsg, attemptLabel, List.append_assoc]
  · intro si r hsi hr hnf
    obtain ⟨b, hb⟩ := runAttempts_success env (k + 1) (attemptOrder (k + 1)) none
      ⟨(si, r), mem_attemptOrder_iff.mpr ⟨hsi, hr⟩, hnf⟩
    rcases hcg : cacheGet now cache url with ⟨copt, c⟩
    cases copt with
    | some cached =>
      refine ⟨cached, ?_⟩
      unfold fetchWithCorsProxy
      rw [hcg]
    | none =>
      refine ⟨b, ?_⟩
      unfold fetchWithCorsProxy
      rw [hcg, hb]

/-- Witness for `fetchWithCorsProxy_exhaustion`: every attempt throws
`boom`; with one retry per relay the final error names the last relay. -/
theorem fetchWithCorsProxy_exhaustion_witness :
    attemptFailed relayEnvAllFail 6 0 ∧
    serviceName (corsServiceNames.length - 1)
      <:+: allFailedMsg 1 (some (attemptLabel 6 (str "boom"))) := by
  have h := (fetchWithCorsProxy_exhaustion relayEnvAllFail 0
      (⟨[], 600000⟩ : SimpleCache Str) (str "u") 1 (by decide)).1
    (allFailedMsg 1 (some (attemptLabel 6 (str "boom")))) rfl
  exact ⟨h.1 6 (by decide) 0 (by decide), h.2.1⟩

/-- C7: a relay reply whose unwrapped body is shorter than 100 characters is
treated as a failed attempt — on success the returned body is either longer
than 100 characters or came from the cache, on failure the html cache is
left exactly as the initial lookup left it, and in the concrete
short-then-long scenario the chain falls through to relay #2's body. -/
theorem fetchWithCorsProxy_short_body_rejected (env : RelayEnv) (now : Int)
    (cache : SimpleCache Str) (url : Str) (maxRetries : Nat) :
    (∀ b, (fetchWithCorsProxy env now cache url maxRetries).1 = .ok b →
        100 < b.length ∨ (cacheGet now cache url).1 = some b) ∧
    (∀ e, (fetchWithCorsProxy env now cache url maxRetries).1 = .error e →
        (fetchWithCorsProxy env now cache url maxRetries).2
          = (cacheGet now cache url).2) ∧
    (∀ bshort blong, bshort.length < 100 → 100 < blong.length →
        0 < maxRetries → (cacheGet now cache url).1 = none →
        (fetchWithCorsProxy (twoRelayEnv bshort blong) now cache url maxRetries).1
          = .ok blong) := by
  refine ⟨?_, ?_, ?_⟩
  · intro b hb
    unfold fetchWithCorsProxy at hb
    rcases hcg : cacheGet now cache url with ⟨copt, c⟩
    rw [hcg] at hb
    cases copt with
    | some cached =>
      simp at hb
      right
      rw [hb]
    | none =>
      cases hra : runAttempts env maxRetries (attemptOrder maxRetries) none with
      | ok body =>
        rw [hra] at hb
        simp at hb
        left
        rw [← hb]
        exact runAttempts_ok_length env maxRetries _ _ _ hra
      | error e' =>
        rw [hra] at hb
        simp at hb
  · intro e hee
    unfold fetchWithCorsProxy at hee ⊢
    rcases hcg : cacheGet now cache url with ⟨copt, c⟩
    rw [hcg] at hee
    cases copt with
    | some cached => simp at hee
    | none =>
      cases hra : runAttempts env maxRetries (attemptOrder maxRetries) none with
      | ok body =>
        rw [hra] at hee
        simp at hee
      | error e' => rfl
  · intro bshort blong hshort hlong hmr hmiss
    obtain ⟨k, rfl⟩ : ∃ k, maxRetries = k + 1 := ⟨maxRetries - 1, by omega⟩
    rcases hcg : cacheGet now cache url with ⟨copt, c⟩
    rw [hcg] at hmiss
    simp at hmiss
    subst hmiss
    unfold fetchWithCorsProxy
    rw [hcg]
    have hfail0 : ∀ p ∈ serviceAttempts 0 (k + 1),
        attemptFailed (twoRelayEnv bshort blong) p.1 p.2 := by
      intro p hp
      unfold serviceAttempts at hp
      rw [List.mem_map] at hp
      obtain ⟨r, _, rfl⟩ := hp
      show attemptFailed (twoRelayEnv bshort blong) 0 r
      unfold attemptFailed twoRelayEnv
      simp
      omega
    have hdecomp : attemptOrder (k + 1)
        = serviceAttempts 0 (k + 1) ++ (serviceAttempts 1 (k + 1) ++
          (serviceAttempts 2 (k + 1) ++ (serviceAttempts 3 (k + 1) ++
          (serviceAttempts 4 (k + 1) ++ (serviceAttempts 5 (k + 1) ++
          (serviceAttempts 6 (k + 1) ++ [])))))) := rfl
    rw [hdecomp, runAttempts_append_failed _ _ _ _ _ hfail0]
    rw [show serviceAttempts 1 (k + 1)
        = (1, 0) :: (((List.range k).map Nat.succ).map fun r => ((1 : Nat), r)) from by
      unfold serviceAttempts
      rw [List.range_succ_eq_map]
      rfl]
    rw [List.cons_append]
    rw [show runAttempts (twoRelayEnv bshort blong) (k + 1)
        (((1, 0) : Nat × Nat) ::
          ((((List.range k).map Nat.succ).map fun r => ((1 : Nat), r)) ++
            (serviceAttempts 2 (k + 1) ++ (serviceAttempts 3 (k + 1) ++
            (serviceAttempts 4 (k + 1) ++ (serviceAttempts 5 (k + 1) ++
            (serviceAttempts 6 (k + 1) ++ [])))))))
        (finalLabel (twoRelayEnv bshort blong) (serviceAttempts 0 (k + 1)) none)
        = .ok blong from by
      unfold runAttempts twoRelayEnv
      simp [hlong]]

/-- Witness for `fetchWithCorsProxy_short_body_rejected`: relay #1 always
yields a 1-character body, relay #2 a 101-character body; the chain returns
relay #2's body. -/
theorem fetchWithCorsProxy_short_body_rejected_witness :
    (fetchWithCorsProxy (twoRelayEnv (str "x") (List.replicate 101 'a')) 0
        (⟨[], 600000⟩ : SimpleCache Str) (str "u") 1).1
      = .ok (List.replicate 101 'a') :=
  (fetchWithCorsProxy_short_body_rejected (twoRelayEnv (str "x")
      (List.replicate 101 'a')) 0 (⟨[], 600000⟩ : SimpleCache Str)
      (str "u") 1).2.2
    (str "x") (List.replicate 101 'a') (by decide)
    (by simp) (by decide) (by decide)

/-! ### Lemmas and claim theorem for the quality filter -/

theorem jsIncludes_iff {hay needle : Str} :
    jsIncludes hay needle = true ↔ needle <:+: hay := by
  simp [jsIncludes]

theorem substr_trans {a b c : Str} (h1 : a <:+: b) (h2 : b <:+: c) :
    a <:+: c := by
  obtain ⟨s, t, rfl⟩ := h1
  obtain ⟨u, v, rfl⟩ := h2
  exact ⟨u ++ s, t ++ v, by simp [List.append_assoc]⟩

theorem substr_toLower {p s : Str} (hp : p.map Char.toLower = p)
    (h : p <:+: s) : p <:+: jsToLower s := by
  obtain ⟨u, v, rfl⟩ := h
  exact ⟨u.map Char.toLower, v.map Char.toLower,
    by simp [jsToLower, List.map_append, hp]⟩

/-- C8: the quality filter rejects every candidate whose src contains
`logo-nav.png` regardless of dimensions; accepts a 300×200 candidate with a
`.png` extension and no denylisted substring in url or alt; rejects a
299×200 candidate outright; and a candidate with unknown dimensions passes
the size sub-check permissively. -/
theorem isQualityImage_spec :
    (∀ img : ExtractedImage, jsIncludes img.src (str "logo-nav.png") = true →
        isQualityImage img = false) ∧
    (∀ src alt : Str, jsIncludes (jsToLower src) (str ".png") = true →
        (∀ kw ∈ lowQualityKeywordsHook, jsIncludes (jsToLower src) kw = false ∧
          jsIncludes (jsToLower alt) kw = false) →
        isQualityImage
          { src := src, alt := alt, width := some 300, height := some 200 }
            = true) ∧
    (∀ src alt : Str, isQualityImage
        { src := src, alt := alt, width := some 299, height := some 200 }
          = false) ∧
    meetsSizeCheck none none 300 200 = true := by
  refine ⟨?_, ?_, ?_, by decide⟩
  · intro img h
    have h1 : (str "logo-nav.png") <:+: img.src := jsIncludes_iff.mp h
    have h2 : (str "logo-nav.png") <:+: jsToLower img.src :=
      substr_toLower (by decide) h1
    have h3 : (str "logo-") <:+: jsToLower img.src :=
      substr_trans ⟨[], str "nav.png", by decide⟩ h2
    have hkw : (lowQualityKeywordsHook.any fun kw =>
        jsIncludes (jsToLower img.src) kw || jsIncludes (jsToLower img.alt) kw)
          = true := by
      apply List.any_eq_true.mpr
      refine ⟨str "logo-", by decide, ?_⟩
      simp [jsIncludes_iff.mpr h3]
    simp [isQualityImage, hkw]
  · intro src alt hfmt hkw
    have hfmt' : (qualityFormats.any fun ext =>
        jsIncludes (jsToLower src) ext) = true := by
      apply List.any_eq_true.mpr
      exact ⟨str ".png", by decide, hfmt⟩
    have hkw' : (lowQualityKeywordsHook.any fun kw =>
        jsIncludes (jsToLower src) kw || jsIncludes (jsToLower alt) kw)
          = false := by
      apply List.any_eq_false.mpr
      intro kw hmem
      obtain ⟨hk1, hk2⟩ := hkw kw hmem
      simp [hk1, hk2]
    simp [isQualityImage, hfmt', hkw', meetsSizeCheck, numTruthy]
  · intro src alt
    have hms : meetsSizeCheck (some 299) (some 200) 300 200 = false := by decide
    simp [isQualityImage, hms]

/-- Witness for `isQualityImage_spec` on concrete candidates. -/
theorem isQualityImage_spec_witness :
    isQualityImage { src := str "https://ex.com/logo-nav.png",
                     alt := str "", width := some 1000, height := some 800 } = false ∧
    isQualityImage { src := str "https://ex.com/photo.png",
                     alt := str "a photo", width := some 300, height := some 200 } = true ∧
    isQualityImage { src := str "https://ex.com/photo.png",
                     alt := str "a photo", width := some 299, height := some 200 } = false :=
  ⟨isQualityImage_spec.1 _ (by decide),
   isQualityImage_spec.2.1 (str "https://ex.com/photo.png") (str "a photo")
     (by decide) (by decide),
   isQualityImage_spec.2.2.1 _ _⟩

/-! ### Lemmas about candidate collection -/

theorem strContains_iff {l : List Str} {a : Str} :
    l.contains a = true ↔ a ∈ l := by
  induction l with
  | nil => simp
  | cons b t ih => simp [List.contains_cons, ih]

theorem addCandidate_of_contains {st : ExtractSt} {src alt : Str}
    {w h : Option Int} (hc : st.foundUrls.contains src = true) :
    addCandidate st src alt w h = st := by
  unfold addCandidate
  rw [hc]
  simp

theorem addCandidate_of_not_contains {st : ExtractSt} {src alt : Str}
    {w h : Option Int} (hc : st.foundUrls.contains src = false) :
    addCandidate st src alt w h
      = { foundUrls := src :: st.foundUrls,
          candidateImages := st.candidateImages
            ++ [{ src := src, alt := alt, width := w, height := h }] } := by
  unfold addCandidate
  rw [hc]
  simp

theorem addCandidate_inv {st : ExtractSt} {src alt : Str} {w h : Option Int}
    (hst : stInv st) : stInv (addCandidate st src alt w h) := by
  cases hc : st.foundUrls.contains src with
  | true => rw [addCandidate_of_contains hc]; exact hst
  | false =>
    obtain ⟨heq, hnd⟩ := hst
    have hmem : src ∉ st.foundUrls := by
      intro hm
      rw [strContains_iff.mpr hm] at hc
      exact Bool.noConfusion hc
    rw [addCandidate_of_not_contains hc]
    refine ⟨?_, ?_⟩
    · simp [List.map_append, List.reverse_append, heq]
    · exact List.nodup_cons.mpr ⟨hmem, hnd⟩

theorem pushIfNew_inv {st : ExtractSt} {absSrc : Option Str} {alt : Str}
    {w h : Option Int} (hst : stInv st) : stInv (pushIfNew st absSrc alt w h) := by
  unfold pushIfNew
  cases absSrc with
  | none => exact hst
  | some abs =>
    cases ht : strTruthy abs with
    | true => simpa [ht] using addCandidate_inv hst
    | false => simpa [ht] using hst

theorem addCandidate_found_mono (st : ExtractSt) (src alt : Str)
    (w h : Option Int) :
    st.foundUrls ⊆ (addCandidate st src alt w h).foundUrls := by
  cases hc : st.foundUrls.contains src with
  | true => rw [addCandidate_of_contains hc]; exact List.Subset.refl _
  | false =>
    rw [addCandidate_of_not_contains hc]
    exact List.subset_cons_self _ _

theorem pushIfNew_found_mono (st : ExtractSt) (absSrc : Option Str)
    (alt : Str) (w h : Option Int) :
    st.foundUrls ⊆ (pushIfNew st absSrc alt w h).foundUrls := by
  unfold pushIfNew
  cases absSrc with
  | none => exact fun x hx => hx
  | some abs =>
    cases ht : strTruthy abs with
    | true => simpa [ht] using addCandidate_found_mono st abs alt w h
    | false => simp [ht]

theorem foldl_preserves_inv {α : Type} {f : ExtractSt → α → ExtractSt}
    (hf : ∀ st a, stInv st → stInv (f st a)) :
    ∀ (l : List α) (st : ExtractSt), stInv st → stInv (l.foldl f st) := by
  intro l
  induction l with
  | nil => intro st h; exact h
  | cons a t ih =>
    intro st h
    rw [List.foldl_cons]
    exact ih _ (hf st a h)

theorem foldl_found_mono {α : Type} {f : ExtractSt → α → ExtractSt}
    (hf : ∀ st a, st.foundUrls ⊆ (f st a).foundUrls) :
    ∀ (l : List α) (st : ExtractSt), st.foundUrls ⊆ (l.foldl f st).foundUrls := by
  intro l
  induction l with
  | nil => intro st; exact fun x hx => hx
  | cons a t ih =>
    intro st
    rw [List.foldl_cons]
    exact fun x hx => ih (f st a) (hf st a hx)

theorem imgTagStep_inv (base : BaseUrl) (st : ExtractSt) (img : ImgEl)
    (hst : stInv st) : stInv (imgTagStep base st img) := by
  unfold imgTagStep
  cases hs : imgChosenSrc img with
  | some src => exact pushIfNew_inv hst
  | none => exact hst

theorem imgTagStep_found_mono (base : BaseUrl) (st : ExtractSt) (img : ImgEl) :
    st.foundUrls ⊆ (imgTagStep base st img).foundUrls := by
  unfold imgTagStep
  cases hs : imgChosenSrc img with
  | some src => exact pushIfNew_found_mono st _ _ _ _
  | none => exact fun x hx => hx

theorem bgStep_inv (base : BaseUrl) (st : ExtractSt) (el : BgEl)
    (hst : stInv st) : stInv (bgStep base st el) := by
  unfold bgStep
  cases hcap : bgCapture (el.style.getD (str "")) with
  | some cap =>
    cases ht : strTruthy cap with
    | true => simpa [ht] using pushIfNew_inv hst
    | false => simpa [ht] using hst
  | none => exact hst

theorem bgStep_found_mono (base : BaseUrl) (st : ExtractSt) (el : BgEl) :
    st.foundUrls ⊆ (bgStep base st el).foundUrls := by
  unfold bgStep
  cases hcap : bgCapture (el.style.getD (str "")) with
  | some cap =>
    cases ht : strTruthy cap with
    | true => simpa [ht] using pushIfNew_found_mono st _ _ _ _
    | false => simp [ht]
  | none => exact fun x hx => hx

theorem metaStep_inv (base : BaseUrl) (st : ExtractSt) (meta : MetaEl)
    (hst : stInv st) : stInv (metaStep base st meta) := by
  unfold metaStep
  cases hc : meta.content with
  | some content =>
    cases ht : strTruthy content with
    | true => simpa [ht] using pushIfNew_inv hst
    | false => simpa [ht] using hst
  | none => exact hst

theorem metaStep_found_mono (base : BaseUrl) (st : ExtractSt) (meta : MetaEl) :
    st.foundUrls ⊆ (metaStep base st meta).foundUrls := by
  unfold metaStep
  cases hc : meta.content with
  | some content =>
    cases ht : strTruthy content with
    | true => simpa [ht] using pushIfNew_found_mono st _ _ _ _
    | false => simp [ht]
  | none => exact fun x hx => hx

theorem ecomStep_inv (base : BaseUrl) (st : ExtractSt) (el : EcomEl)
    (hst : stInv st) : stInv (ecomStep base st el) := by
  unfold ecomStep
  cases hs : firstTruthyStr [el.src, el.dataSrc, el.dataOriginal] with
  | some src => exact pushIfNew_inv hst
  | none => exact hst

theorem ecomStep_found_mono (base : BaseUrl) (st : ExtractSt) (el : EcomEl) :
    st.foundUrls ⊆ (ecomStep base st el).foundUrls := by
  unfold ecomStep
  cases hs : firstTruthyStr [el.src, el.dataSrc, el.dataOriginal] with
  | some src => exact pushIfNew_found_mono st _ _ _ _
  | none => exact fun x hx => hx

mutual

theorem extractFromJson_inv (base : BaseUrl) :
    ∀ (j : Json) (path : Str) (st : ExtractSt),
      stInv st → stInv (extractFromJson base j path st)
  | .str s, path, st, hst => by
    unfold extractFromJson
    cases hf : jsonImgString s with
    | true => simpa [hf] using pushIfNew_inv hst
    | false => simpa [hf] using hst
  | .obj fields, _, st, hst => extractFromJsonFields_inv base fields st hst
  | .null, _, st, hst => hst
  | .bool b, _, st, hst => hst
  | .num n, _, st, hst => hst
  | .arr items, _, st, hst => hst

theorem extractFromJsonFields_inv (base : BaseUrl) :
    ∀ (fields : List (Str × Json)) (st : ExtractSt),
      stInv st → stInv (extractFromJsonFields base fields st)
  | [], st, hst => hst
  | (k, v) :: rest, st, hst => by
    unfold extractFromJsonFields
    apply extractFromJsonFields_inv base rest
    cases hk : keyMatches k with
    | true => simpa [hk] using extractFromJson_inv base v k st hst
    | false => simpa [hk] using hst

end

mutual

theorem extractFromJson_found_mono (base : BaseUrl) :
    ∀ (j : Json) (path : Str) (st : ExtractSt),
      st.foundUrls ⊆ (extractFromJson base j path st).foundUrls
  | .str s, path, st => by
    unfold extractFromJson
    cases hf : jsonImgString s with
    | true => simpa [hf] using pushIfNew_found_mono st _ _ _ _
    | false => simp [hf]
  | .obj fields, _, st => extractFromJsonFields_found_mono base fields st
  | .null, _, st => List.Subset.refl _
  | .bool b, _, st => List.Subset.refl _
  | .num n, _, st => List.Subset.refl _
  | .arr items, _, st => List.Subset.refl _

theorem extractFromJsonFields_found_mono (base : BaseUrl) :
    ∀ (fields : List (Str × Json)) (st : ExtractSt),
      st.foundUrls ⊆ (extractFromJsonFields base fields st).foundUrls
  | [], st => List.Subset.refl _
  | (k, v) :: rest, st => by
    unfold extractFromJsonFields
    cases hk : keyMatches k with
    | true =>
      refine List.Subset.trans ?_
        (extractFromJsonFields_found_mono base rest _)
      simpa [hk] using extractFromJson_found_mono base v k st
    | false =>
      refine List.Subset.trans ?_
        (extractFromJsonFields_found_mono base rest _)
      simp [hk]

end

theorem jsonLdStep_inv (base : BaseUrl) (st : ExtractSt) (parsed : Option Json)
    (hst : stInv st) : stInv (jsonLdStep base st parsed) := by
  unfold jsonLdStep
  cases parsed with
  | some data => exact extractFromJson_inv base data (str "") st hst
  | none => exact hst

theorem jsonLdStep_found_mono (base : BaseUrl) (st : ExtractSt)
    (parsed : Option Json) :
    st.foundUrls ⊆ (jsonLdStep base st parsed).foundUrls := by
  unfold jsonLdStep
  cases parsed with
  | some data => exact extractFromJson_found_mono base data (str "") st
  | none => exact List.Subset.refl _

theorem extractFromImgTags_inv (base : BaseUrl) (imgs : List ImgEl)
    {st : ExtractSt} (hst : stInv st) :
    stInv (extractFromImgTags base imgs st) :=
  foldl_preserves_inv (fun st img => imgTagStep_inv base st img) imgs st hst

theorem extractFromBackgroundImages_inv (base : BaseUrl) (els : List BgEl)
    {st : ExtractSt} (hst : stInv st) :
    stInv (extractFromBackgroundImages base els st) :=
  foldl_preserves_inv (fun st el => bgStep_inv base st el) _ st hst

theorem extractFromMetaTags_inv (base : BaseUrl) (metas : List MetaEl)
    {st : ExtractSt} (hst : stInv st) :
    stInv (extractFromMetaTags base metas st) :=
  foldl_preserves_inv (fun st m => metaStep_inv base st m) metas st hst

theorem extractFromEcomSelectors_inv (base : BaseUrl)
    (groups : List (List EcomEl)) {st : ExtractSt} (hst : stInv st) :
    stInv (extractFromEcomSelectors base groups st) :=
  foldl_preserves_inv
    (fun st els => foldl_preserves_inv
      (fun st el => ecomStep_inv base st el) els st)
    groups st hst

theorem extractFromBackgroundImages_found_mono (base : BaseUrl)
    (els : List BgEl) (st : ExtractSt) :
    st.foundUrls ⊆ (extractFromBackgroundImages base els st).foundUrls :=
  foldl_found_mono (fun st el => bgStep_found_mono base st el) _ st

theorem extractFromMetaTags_found_mono (base : BaseUrl) (metas : List MetaEl)
    (st : ExtractSt) :
    st.foundUrls ⊆ (extractFromMetaTags base metas st).foundUrls :=
  foldl_found_mono (fun st m => metaStep_found_mono base st m) metas st

theorem extractFromEcomSelectors_found_mono (base : BaseUrl)
    (groups : List (List EcomEl)) (st : ExtractSt) :
    st.foundUrls ⊆ (extractFromEcomSelectors base groups st).foundUrls :=
  foldl_found_mono
    (fun st els => foldl_found_mono
      (fun st el => ecomStep_found_mono base st el) els st)
    groups st

theorem jsonLds_fold_found_mono (base : BaseUrl) (parsedList : List (Option Json))
    (st : ExtractSt) :
    st.foundUrls ⊆ (parsedList.foldl (jsonLdStep base) st).foundUrls :=
  foldl_found_mono (fun st p => jsonLdStep_found_mono base st p) parsedList st

theorem pushIfNew_mem_found (st : ExtractSt) (A alt : Str) (w h : Option Int)
    (hA : strTruthy A = true) :
    A ∈ (pushIfNew st (some A) alt w h).foundUrls := by
  show A ∈ (if strTruthy A = true then addCandidate st A alt w h
    else st).foundUrls
  rw [hA, if_pos rfl]
  cases hc : st.foundUrls.contains A with
  | true =>
    rw [addCandidate_of_contains hc]
    exact strContains_iff.mp hc
  | false =>
    rw [addCandidate_of_not_contains hc]
    exact List.mem_cons_self _ _

theorem extractFromImgTags_mem (base : BaseUrl) :
    ∀ (imgs : List ImgEl) (st : ExtractSt) (img : ImgEl) (s A : Str),
      img ∈ imgs → imgChosenSrc img = some s →
      convertToAbsoluteUrl s base = some A → strTruthy A = true →
      A ∈ (extractFromImgTags base imgs st).foundUrls := by
  intro imgs
  induction imgs with
  | nil =>
    intro st img s A hm _ _ _
    exact absurd hm (List.not_mem_nil _)
  | cons hd tl ih =>
    intro st img s A hm hs hc hA
    unfold extractFromImgTags
    rw [List.foldl_cons]
    rcases List.mem_cons.mp hm with rfl | hmem
    · have hstep : A ∈ (imgTagStep base st img).foundUrls := by
        unfold imgTagStep
        rw [hs]
        simp only [hc]
        exact pushIfNew_mem_found st A _ _ _ hA
      exact foldl_found_mono
        (fun st a => imgTagStep_found_mono base st a) tl _ hstep
    · exact ih (imgTagStep base st hd) img s A hmem hs hc hA

/-- C9: within one page extraction, the candidate set is deduplicated by
absolute URL across all collection passes — no absolute URL appears twice
among the candidates, and an `<img>` element whose chosen source resolves to
absolute URL `A` contributes exactly one candidate with source `A`. -/
theorem extract_candidates_unique (base : BaseUrl) (doc : Doc) :
    ((collectCandidates base doc).candidateImages.map fun c => c.src).Nodup ∧
    (∀ img ∈ doc.imgs, ∀ s A : Str, imgChosenSrc img = some s →
      convertToAbsoluteUrl s base = some A → strTruthy A = true →
      ((collectCandidates base doc).candidateImages.map fun c => c.src).count A
        = 1) := by
  have hcc : collectCandidates base doc
      = extractFromEcomSelectors base doc.ecomEls
          (List.foldl (jsonLdStep base)
            (extractFromMetaTags base doc.metaEls
              (extractFromBackgroundImages base doc.bgEls
                (extractFromImgTags base doc.imgs
                  { foundUrls := [], candidateImages := [] })))
            doc.jsonLds) := rfl
  have hst0 : stInv { foundUrls := [], candidateImages := [] } :=
    ⟨rfl, List.nodup_nil⟩
  have hfin : stInv (collectCandidates base doc) := by
    rw [hcc]
    exact extractFromEcomSelectors_inv base _
      (foldl_preserves_inv (fun st p => jsonLdStep_inv base st p) _ _
        (extractFromMetaTags_inv base _
          (extractFromBackgroundImages_inv base _
            (extractFromImgTags_inv base _ hst0))))
  obtain ⟨heq, hnd⟩ := hfin
  have hnodup :
      ((collectCandidates base doc).candidateImages.map fun c => c.src).Nodup := by
    rw [heq] at hnd
    exact List.nodup_reverse.mp hnd
  refine ⟨hnodup, ?_⟩
  intro img hm s A hs hc hA
  have hmem1 : A ∈ (extractFromImgTags base doc.imgs
      { foundUrls := [], candidateImages := [] }).foundUrls :=
    extractFromImgTags_mem base doc.imgs _ img s A hm hs hc hA
  have hmem5 : A ∈ (collectCandidates base doc).foundUrls := by
    rw [hcc]
    exact extractFromEcomSelectors_found_mono base _ _
      (jsonLds_fold_found_mono base _ _
        (extractFromMetaTags_found_mono base _ _
          (extractFromBackgroundImages_found_mono base _ _ hmem1)))
  have hmemsrc :
      A ∈ (collectCandidates base doc).candidateImages.map fun c => c.src := by
    rw [heq] at hmem5
    exact List.mem_reverse.mp hmem5
  have hbridge : ∀ (l : List Str),
      l.count A = @List.count Str instBEqOfDecidableEq A l := by
    intro l
    unfold List.count
    apply List.countP_congr
    intro x _
    constructor
    · intro hx
      have hxe : x = A := by simpa using hx
      simp [hxe]
    · intro hx
      have hxe : x = A := by simpa using hx
      simp [hxe]
  rw [hbridge]
  exact List.count_eq_one_of_mem hnodup hmemsrc

/-- Witness for `extract_candidates_unique`: two `<img>` tags resolving to
the same absolute URL (one via `src`, one via `data-src`) yield exactly one
candidate with that URL. -/
theorem extract_candidates_unique_witness :
    ((collectCandidates c9Base c9Doc).candidateImages.map fun c => c.src).count
        (str "https://ex.com/a.jpg") = 1 :=
  (extract_candidates_unique c9Base c9Doc).2 c9ImgB
    (List.mem_cons_of_mem _ (List.mem_cons_self _ _))
    (str "https://ex.com/a.jpg") (str "https://ex.com/a.jpg")
    rfl rfl rfl

/-! ### Lemmas about the reachability probe -/

theorem mapLookup_mem {α : Type} :
    ∀ {l : List (Str × α)} {k : Str} {v : α},
      mapLookup l k = some v → (k, v) ∈ l := by
  intro l
  induction l with
  | nil => intro k v h; exact Option.noConfusion h
  | cons hd tl ih =>
    intro k v h
    obtain ⟨k', v'⟩ := hd
    unfold mapLookup at h
    by_cases hk : k' = k
    · rw [if_pos hk] at h
      injection h with h1
      subst hk
      subst h1
      exact List.mem_cons_self _ _
    · rw [if_neg hk] at h
      exact List.mem_cons_of_mem _ (ih h)

theorem mapDelete_mem {α : Type} :
    ∀ {l : List (Str × α)} {k : Str} {p : Str × α},
      p ∈ mapDelete l k → p ∈ l := by
  intro l
  induction l with
  | nil => intro k p h; exact absurd h (List.not_mem_nil p)
  | cons hd tl ih =>
    intro k p h
    obtain ⟨k', v'⟩ := hd
    unfold mapDelete at h
    by_cases hk : k' = k
    · rw [if_pos hk] at h
      exact List.mem_cons_of_mem _ h
    · rw [if_neg hk] at h
      rcases List.mem_cons.mp h with rfl | h'
      · exact List.mem_cons_self _ _
      · exact List.mem_cons_of_mem _ (ih h')

theorem mapSet_mem {α : Type} :
    ∀ {l : List (Str × α)} {k : Str} {v : α} {p : Str × α},
      p ∈ mapSet l k v → p ∈ l ∨ p = (k, v) := by
  intro l
  induction l with
  | nil =>
    intro k v p h
    unfold mapSet at h
    rcases List.mem_cons.mp h with rfl | h'
    · exact Or.inr rfl
    · exact absurd h' (List.not_mem_nil p)
  | cons hd tl ih =>
    intro k v p h
    obtain ⟨k', v'⟩ := hd
    by_cases hk : k' = k
    · rw [mapSet_cons_eq hk] at h
      rcases List.mem_cons.mp h with rfl | h'
      · exact Or.inr rfl
      · exact Or.inl (List.mem_cons_of_mem _ h')
    · rw [mapSet_cons_ne hk] at h
      rcases List.mem_cons.mp h with rfl | h'
      · exact Or.inl (List.mem_cons_self _ _)
      · rcases ih h' with h'' | h''
        · exact Or.inl (List.mem_cons_of_mem _ h'')
        · exact Or.inr h''

theorem probeWF_get_snd {env : ProbeEnv} {now : Int} {c : SimpleCache Bool}
    {k : Str} (hwf : probeWF env c) : probeWF env (cacheGet now c k).2 := by
  unfold cacheGet
  cases hl : mapLookup c.cache k with
  | none => exact hwf
  | some e =>
    show probeWF env
      ((if now - e.timestamp > e.expiry then
          ((none, { c with cache := mapDelete c.cache k }) :
            Option Bool × SimpleCache Bool)
        else (some e.data, c))).2
    by_cases hex : now - e.timestamp > e.expiry
    · rw [if_pos hex]
      intro p hp hdata
      exact hwf p (mapDelete_mem hp) hdata
    · rw [if_neg hex]
      exact hwf

theorem probeWF_get_true {env : ProbeEnv} {now : Int} {c : SimpleCache Bool}
    {k : Str} {c1 : SimpleCache Bool} (hwf : probeWF env c)
    (h : cacheGet now c k = (some true, c1)) : env.headOk k = true := by
  unfold cacheGet at h
  cases hl : mapLookup c.cache k with
  | none => rw [hl] at h; simp at h
  | some e =>
    rw [hl] at h
    have h' : (if now - e.timestamp > e.expiry then
        ((none, { c with cache := mapDelete c.cache k }) :
          Option Bool × SimpleCache Bool)
      else (some e.data, c)) = (some true, c1) := h
    by_cases hex : now - e.timestamp > e.expiry
    · rw [if_pos hex] at h'
      simp at h'
    · rw [if_neg hex] at h'
      have hdata : e.data = true := by
        injection h' with h1 h2
        injection h1
      exact hwf (k, e) (mapLookup_mem hl) hdata

theorem probeWF_set_headOk {env : ProbeEnv} {now : Int} {c : SimpleCache Bool}
    {k : Str} {ttl : Option Int} (hwf : probeWF env c) :
    probeWF env (cacheSet now c k (env.headOk k) ttl) := by
  intro p hp hdata
  unfold cacheSet at hp
  rcases mapSet_mem hp with h | h
  · exact hwf p h hdata
  · subst h
    simpa using hdata

theorem testImageUrl_spec {env : ProbeEnv} {now : Int} {c : SimpleCache Bool}
    {u : Str} (hwf : probeWF env c) :
    ((testImageUrl env now c u).1 = true → env.headOk u = true) ∧
    probeWF env (testImageUrl env now c u).2 := by
  unfold testImageUrl
  rcases hg : cacheGet now c u with ⟨copt, c1⟩
  have hwf1 : probeWF env c1 := by
    have := @probeWF_get_snd env now c u hwf
    rw [hg] at this
    exact this
  cases copt with
  | some b =>
    refine ⟨?_, hwf1⟩
    intro hb
    subst hb
    exact probeWF_get_true hwf hg
  | none =>
    refine ⟨fun hb => hb, probeWF_set_headOk hwf1⟩

theorem findWorkingUrl_spec (env : ProbeEnv) (now : Int) :
    ∀ (vars : List Str) (cache : SimpleCache Bool), probeWF env cache →
      (∀ v c', findWorkingUrl env now vars cache = (some v, c') →
        env.headOk v = true) ∧
      probeWF env (findWorkingUrl env now vars cache).2 := by
  intro vars
  induction vars with
  | nil =>
    intro cache hwf
    exact ⟨fun v c' h => by simp [findWorkingUrl] at h, hwf⟩
  | cons v0 rest ih =>
    intro cache hwf
    have ht := @testImageUrl_spec env now cache v0 hwf
    unfold findWorkingUrl
    rcases htt : testImageUrl env now cache v0 with ⟨b, c1⟩
    cases b with
    | true =>
      constructor
      · intro v c' h
        have hv : v0 = v := by
          injection h with h1 h2
          injection h1
        rw [← hv]
        apply ht.1
        rw [htt]
      · have := ht.2
        rw [htt] at this
        exact this
    | false =>
      have hwf1 : probeWF env c1 := by
        have := ht.2
        rw [htt] at this
        exact this
      exact ih c1 hwf1

theorem processImageUrl_ok_probed {env : SvcEnv} {now : Int} {st : SvcState}
    {url : Str} {r : ImageSource}
    (hwf : probeWF env.probe st.imageUrlCache)
    (h : (processImageUrl env now st url).1 = .ok r) :
    env.probe.headOk r.src = true := by
  unfold processImageUrl at h
  split at h
  · exact Except.noConfusion h
  · split at h
    · exact Except.noConfusion h
    · split at h
      next c1 heq => exact Except.noConfusion h
      next workingUrl c1 heq =>
        have hok : env.probe.headOk workingUrl = true :=
          (findWorkingUrl_spec env.probe now (urlVariations url)
            st.imageUrlCache hwf).1 workingUrl c1 heq
        have hr : r.src = workingUrl := by
          simp at h
          rw [← h]
        rw [hr]
        exact hok

theorem completeDims_src (env : SvcEnv) (now : Int)
    (dcache : SimpleCache (Int × Int)) (img1 : ExtractedImage) :
    (completeDims env now dcache img1).1.src = img1.src := by
  unfold completeDims
  split
  · split
    next dims c2 heq => rfl
    next c2 heq => rfl
  · rfl

theorem qualityLoop_cons_none {env : SvcEnv} {now minW minH : Int}
    {maxR : Nat} {img : ExtractedImage} {rest : List ExtractedImage}
    {st : SvcState} {acc : List ImageSource} {c1 : SimpleCache Bool}
    (hgw : getWorkingImageUrl env.probe now st.imageUrlCache img.src
      = (none, c1)) :
    qualityLoop env now minW minH maxR (img :: rest) st acc
      = qualityLoop env now minW minH maxR rest
          { st with imageUrlCache := c1 } acc := by
  conv_lhs => unfold qualityLoop
  rw [hgw]

theorem qualityLoop_cons_some {env : SvcEnv} {now minW minH : Int}
    {maxR : Nat} {img : ExtractedImage} {rest : List ExtractedImage}
    {st : SvcState} {acc : List ImageSource} {workingUrl : Str}
    {c1 : SimpleCache Bool}
    (hgw : getWorkingImageUrl env.probe now st.imageUrlCache img.src
      = (some workingUrl, c1)) :
    qualityLoop env now minW minH maxR (img :: rest) st acc
      = (let step2 := completeDims env now st.imageDimensionsCache
           { img with src := workingUrl }
         let st1 : SvcState := { imageUrlCache := c1,
                                 imageDimensionsCache := step2.2 }
         let acc1 := if isQualityImageSvc step2.1 minW minH then
             acc ++ [{ src := step2.1.src, alt := step2.1.alt,
                       width := step2.1.width, height := step2.1.height,
                       source := some (str "web-extraction") }]
           else acc
         if maxR ≤ acc1.length then (acc1, st1)
         else qualityLoop env now minW minH maxR rest st1 acc1) := by
  conv_lhs => unfold qualityLoop
  rw [hgw]

theorem qualityLoop_probed {env : SvcEnv} {now minW minH : Int}
    {maxR : Nat} :
    ∀ (cands : List ExtractedImage) (st : SvcState) (acc : List ImageSource),
      probeWF env.probe st.imageUrlCache →
      (∀ d ∈ acc, env.probe.headOk d.src = true) →
      ∀ d ∈ (qualityLoop env now minW minH maxR cands st acc).1,
        env.probe.headOk d.src = true := by
  intro cands
  induction cands with
  | nil =>
    intro st acc hwf hacc d hd
    exact hacc d hd
  | cons img rest ih =>
    intro st acc hwf hacc d hd
    rcases hgw : getWorkingImageUrl env.probe now st.imageUrlCache img.src
      with ⟨wopt, c1⟩
    have hspec := findWorkingUrl_spec env.probe now (urlVariations img.src)
      st.imageUrlCache hwf
    cases wopt with
    | none =>
      have hwf1 : probeWF env.probe c1 := by
        have h2 := hspec.2
        rw [show findWorkingUrl env.probe now (urlVariations img.src)
          st.imageUrlCache = (none, c1) from hgw] at h2
        exact h2
      rw [qualityLoop_cons_none hgw] at hd
      exact ih { st with imageUrlCache := c1 } acc hwf1 hacc d hd
    | some workingUrl =>
      have hok : env.probe.headOk workingUrl = true :=
        hspec.1 workingUrl c1 hgw
      have hwf1 : probeWF env.probe c1 := by
        have h2 := hspec.2
        rw [show findWorkingUrl env.probe now (urlVariations img.src)
          st.imageUrlCache = (some workingUrl, c1) from hgw] at h2
        exact h2
      rw [qualityLoop_cons_some hgw] at hd
      rcases hcd : completeDims env now st.imageDimensionsCache
        { img with src := workingUrl } with ⟨img2, c2⟩
      have hsrc : img2.src = workingUrl := by
        have hs := completeDims_src env now st.imageDimensionsCache
          { img with src := workingUrl }
        rw [hcd] at hs
        exact hs
      rw [hcd] at hd
      dsimp only at hd
      have hacc1 : ∀ d' ∈ (if isQualityImageSvc img2 minW minH then
          acc ++ [{ src := img2.src, alt := img2.alt, width := img2.width,
                    height := img2.height,
                    source := some (str "web-extraction") }]
        else acc), env.probe.headOk d'.src = true := by
        intro d' hd'
        by_cases hq : isQualityImageSvc img2 minW minH = true
        · rw [if_pos hq] at hd'
          rcases List.mem_append.mp hd' with hmem | hmem
          · exact hacc d' hmem
          · have hde : d' = { src := img2.src, alt := img2.alt,
                              width := img2.width, height := img2.height,
                              source := some (str "web-extraction") } := by
              simpa using hmem
            rw [hde]
            show env.probe.headOk img2.src = true
            rw [hsrc]
            exact hok
        · rw [if_neg hq] at hd'
          exact hacc d' hd'
      by_cases hstop : maxR ≤ (if isQualityImageSvc img2 minW minH then
          acc ++ [{ src := img2.src, alt := img2.alt, width := img2.width,
                    height := img2.height,
                    source := some (str "web-extraction") }]
        else acc).length
      · rw [if_pos hstop] at hd
        exact hacc1 d hd
      · rw [if_neg hstop] at hd
        exact ih { imageUrlCache := c1, imageDimensionsCache := c2 } _
          hwf1 hacc1 d hd

theorem extractImagesFromPage_probed {env : SvcEnv} {renv : RelayEnv}
    {now : Int} {htmlCache : SimpleCache Str} {st : SvcState}
    {options : ImageExtractionOptions} {out : List ImageSource}
    (hwf : probeWF env.probe st.imageUrlCache)
    (h : (extractImagesFromPage env renv now htmlCache st options).1 = .ok out) :
    ∀ d ∈ out, env.probe.headOk d.src = true := by
  unfold extractImagesFromPage at h
  dsimp only at h
  split at h
  · exact Except.noConfusion h
  · split at h
    · split at h
      next r st1 heq =>
        have h1 : (processImageUrl env now st options.url).1 = .ok r := by
          rw [heq]
        have hr := processImageUrl_ok_probed hwf h1
        have hout : [r] = out := by simpa using h
        intro d hd
        rw [← hout] at hd
        have : d = r := by simpa using hd
        rw [this]
        exact hr
      next e st1 heq => exact Except.noConfusion h
    · split at h
      next e hc1 heq => exact Except.noConfusion h
      next htmlContent hc1 heq =>
        have hout : (qualityLoop env now (options.minWidth.getD 300)
            (options.minHeight.getD 200) (options.maxResults.getD 15)
            ((svcCollectCandidates (env.parseBase options.url)
              (env.parseDoc htmlContent)).candidateImages) st []).1 = out := by
          simpa using h
        intro d hd
        rw [← hout] at hd
        exact qualityLoop_probed _ st [] hwf
          (fun d' hd' => absurd hd' (List.not_mem_nil d')) d hd

/-! ### Claim theorems for the facade's probe invariant -/

/-- C1 counterexample: `searchUnsplash` emits a descriptor straight from the
search response without any reachability probe — in an environment where the
HEAD probe of its src fails (and nothing is cached), the descriptor is
still returned, so its src never passed a probe. -/
theorem searchUnsplash_no_probe_counterexample :
    searchUnsplash c1UnsplashEnv c1Options
      = .ok [{ src := str "https://u.com/x.jpg",
               alt := str "Imagem do Unsplash", width := some 100,
               height := some 80, source := some (str "unsplash") }] ∧
    (testImageUrl probeEnvAllFail 0 (⟨[], 1800000⟩ : SimpleCache Bool)
        (str "https://u.com/x.jpg")).1 = false :=
  ⟨rfl, rfl⟩

/-- C1 (amended): the reachability invariant holds for the two probing
acquisition operations — every descriptor returned by `processImageUrl` or
`extractImagesFromPage` carries a src whose HEAD probe succeeds, provided
every cached `true` verdict is backed by a succeeding probe; `searchUnsplash`
(and `uploadImage`) return descriptors without consulting the probe. -/
theorem imageService_probe_invariant (env : SvcEnv) (renv : RelayEnv)
    (now : Int) (htmlCache : SimpleCache Str) (st : SvcState)
    (hwf : probeWF env.probe st.imageUrlCache) :
    (∀ url r, (processImageUrl env now st url).1 = .ok r →
        env.probe.headOk r.src = true) ∧
    (∀ options out,
        (extractImagesFromPage env renv now htmlCache st options).1 = .ok out →
        ∀ d ∈ out, env.probe.headOk d.src = true) :=
  ⟨fun _ _ h => processImageUrl_ok_probed hwf h,
   fun _ _ h => extractImagesFromPage_probed hwf h⟩

/-- Witness for `imageService_probe_invariant`: a fully reachable
environment with empty caches, processing a direct image URL. -/
theorem imageService_probe_invariant_witness :
    c1SvcEnv.probe.headOk (str "https://ex.com/p.jpg") = true :=
  (imageService_probe_invariant c1SvcEnv relayEnvAllFail 0
      (⟨[], 600000⟩ : SimpleCache Str) c1SvcState
      (fun p hp _ => absurd hp (List.not_mem_nil p))).1
    (str "https://ex.com/p.jpg")
    { src := str "https://ex.com/p.jpg", alt := str "p", width := some 500,
      height := some 400, source := some (str "url") }
    rfl
